import Mathlib

/-!
# Schelling segregation model (A3-Solution.cpp): embedding and verified properties

The simulation engine of `src/A3-Solution.cpp` is translated function by function.

* `World` is `vector<vector<CellType>>`, a list of rows.
* `Coordinate` is `pair<int, int>`; the `int`s are unbounded integers here, which agrees with the
  program for every grid with fewer than 2^31 rows and columns.
* Reading `world[x][y]` outside the vector is undefined in C++; there `cell_at` returns a default
  (`EMPTY` past the end; a negative index is read as 0) and `set_cell` does nothing. On a
  rectangular grid every access the program makes is at a coordinate inside the grid, so no
  default is ever used there; the statements about cell values are made for such grids and
  coordinates.
* `double` is IEEE 754 binary64 with round-to-nearest-even; every value the program computes is
  non-negative, so `Double` carries NaN, +infinity and the non-negative finite values.
* `random_shuffle` is a parameter: a function from lists to lists. The theorems assume that what
  it returns for the jumpable list is a permutation of that list. A run of several generations
  takes one such function per call.
* `get_world_from_file` takes the lines that `getline` reads from the file, each a sequence of
  characters; opening and closing the file are not modelled.
-/

namespace Schelling

/-! ## Data model -/

/-- The `CellType` enumeration. -/
inductive CellType
  | RED
  | BLUE
  | EMPTY
  deriving DecidableEq, Repr

/-- The `World` typedef: a vector of rows. -/
abbrev World := List (List CellType)

/-- The `Coordinate` typedef: `pair<int, int>`, first the row and then the column. -/
abbrev Coordinate := Int × Int

/-- The result of `random_shuffle` on a vector of coordinates. -/
abbrev Shuffle := List Coordinate → List Coordinate

/-- Row `world[i]`. -/
def row_at (world : World) (i : Int) : List CellType :=
  world.getD i.toNat []

/-- Cell `world[x][y]`. -/
def cell_at (world : World) (x y : Int) : CellType :=
  (row_at world x).getD y.toNat CellType.EMPTY

/-- The assignment `world[x][y] = value`. -/
def set_cell (world : World) (x y : Int) (value : CellType) : World :=
  world.set x.toNat ((row_at world x).set y.toNat value)

/-! ## Binary64 arithmetic on non-negative values -/

/-- A non-negative binary64 value: NaN, +infinity, or the finite number `mant * 2 ^ exp`. -/
inductive Double
  | nan
  | inf
  | finite (mant : Nat) (exp : Int)
  deriving DecidableEq, Repr

namespace Double

/-- Scale `num / den * 2 ^ e` up until the quotient reaches 2^52 or the least exponent. -/
def scale_up : Nat → Nat → Nat → Int → Nat × Int
  | 0, num, _, e => (num, e)
  | fuel + 1, num, den, e =>
    if num < 2 ^ 52 * den ∧ -1074 < e then scale_up fuel (2 * num) den (e - 1) else (num, e)

/-- Scale `num / den * 2 ^ e` down until the quotient is below 2^53. -/
def scale_down : Nat → Nat → Nat → Int → Nat × Int
  | 0, _, den, e => (den, e)
  | fuel + 1, num, den, e =>
    if 2 ^ 53 * den ≤ num then scale_down fuel num (2 * den) (e + 1) else (den, e)

/-- Round the non-negative real `num / den * 2 ^ e` to the nearest binary64 value, ties to even. -/
def round (num den : Nat) (e : Int) : Double :=
  if num = 0 then finite 0 0
  else
    let up := scale_up 2200 num den e
    let down := scale_down 2200 up.1 den up.2
    let q := up.1 / down.1
    let r := up.1 % down.1
    let m := if 2 * r < down.1 then q else if down.1 < 2 * r then q + 1
      else if q % 2 = 0 then q else q + 1
    if 971 < down.2 ∨ (down.2 = 971 ∧ 2 ^ 53 ≤ m) then inf else finite m down.2

/-- Conversion `(double)n` of a count, exact below 2^53. -/
def of_count (n : Nat) : Double := finite n 0

/-- Binary64 division of non-negative values. -/
def div : Double → Double → Double
  | nan, _ => nan
  | _, nan => nan
  | inf, inf => nan
  | inf, finite _ _ => inf
  | finite _ _, inf => finite 0 0
  | finite a ea, finite b eb =>
    if b = 0 then (if a = 0 then nan else inf) else round a b (ea - eb)

/-- Binary64 multiplication of non-negative values. -/
def mul : Double → Double → Double
  | nan, _ => nan
  | _, nan => nan
  | inf, inf => inf
  | inf, finite b _ => if b = 0 then nan else inf
  | finite a _, inf => if a = 0 then nan else inf
  | finite a ea, finite b eb => round (a * b) 1 (ea + eb)

/-- The comparison `d >= (double)t` for an `int` t; it is false when d is NaN. -/
def ge_int : Double → Int → Bool
  | nan, _ => false
  | inf, _ => true
  | finite m e, t => decide (t * 2 ^ (-e).toNat ≤ (m : Int) * 2 ^ e.toNat)

/-- The rational value of a finite binary64 number. -/
def toRat : Double → Option ℚ
  | finite m e => some ((m : ℚ) * 2 ^ e)
  | _ => none

end Double

/-! ## Happiness evaluator -/

/-- The function `is_inside`. -/
def is_inside (x y : Int) (world : World) : Bool :=
  decide (x ≥ 0) && decide (x < (world.length : Int)) && decide (y ≥ 0)
    && decide (y < ((row_at world 0).length : Int))

/-- The two counters of `calculate_happiness` after its double loop over `dx` and `dy`:
    `(neighbours_count, similar_neighbours_count)`. -/
def neighbour_counts (coordinate : Coordinate) (world : World) : Nat × Nat :=
  ([-1, 0, 1] : List Int).foldl (fun counts dx =>
    ([-1, 0, 1] : List Int).foldl (fun counts dy =>
      if dx.natAbs + dy.natAbs = 1 then
        let new_x := coordinate.1 + dx
        let new_y := coordinate.2 + dy
        if is_inside new_x new_y world then
          let current_neighbour := cell_at world new_x new_y
          if cell_at world coordinate.1 coordinate.2 = current_neighbour
              ∨ current_neighbour = CellType.EMPTY then
            (counts.1 + 1, counts.2 + 1)
          else (counts.1 + 1, counts.2)
        else counts
      else counts) counts) (0, 0)

/-- The function `calculate_happiness`:
    `(double)similar_neighbours_count / (double)neighbours_count * 100`. -/
def calculate_happiness (coordinate : Coordinate) (world : World) : Double :=
  let counts := neighbour_counts coordinate world
  Double.mul (Double.div (Double.of_count counts.2) (Double.of_count counts.1))
    (Double.of_count 100)

/-- The function `is_happy`. -/
def is_happy (coordinate : Coordinate) (world : World) (happiness_threshold : Int) : Bool :=
  Double.ge_int (calculate_happiness coordinate world) happiness_threshold

/-! ## Mobility classification -/

/-- The function `get_unhappy_count`; the inner loop runs to `world[i].size()`. -/
def get_unhappy_count (world : World) (happiness_threshold : Int) : Nat :=
  (List.range world.length).foldl (fun unhappy_count (i : Nat) =>
    (List.range (row_at world i).length).foldl (fun unhappy_count (j : Nat) =>
      if cell_at world i j ≠ CellType.EMPTY
          ∧ is_happy ((i : Int), (j : Int)) world happiness_threshold = false then
        unhappy_count + 1
      else unhappy_count) unhappy_count) 0

/-- The function `get_jumpable_coordinates`; the inner loop runs to `world[0].size()`. -/
def get_jumpable_coordinates (world : World) (happiness_threshold : Int) : List Coordinate :=
  (List.range world.length).foldl (fun coordinates (i : Nat) =>
    (List.range (row_at world 0).length).foldl (fun coordinates (j : Nat) =>
      if is_happy ((i : Int), (j : Int)) world happiness_threshold = false
          ∨ cell_at world i j = CellType.EMPTY then
        coordinates ++ [((i : Int), (j : Int))]
      else coordinates) coordinates) []

/-! ## Generation stepper -/

/-- The all-`EMPTY` grid built by the first loop of `run_one_generation`. -/
def empty_world (old_world : World) : World :=
  (List.range old_world.length).foldl (fun new_world _ =>
    new_world ++ [List.replicate (row_at old_world 0).length CellType.EMPTY]) []

/-- The body of the scan of `run_one_generation` at cell `(i, j)`, on the pair
    `(new_world, index)`. -/
def generation_step (jumpable_coordinates : List Coordinate) (old_world : World)
    (happiness_threshold : Int) (state : World × Nat) (coordinate : Coordinate) : World × Nat :=
  if is_happy coordinate old_world happiness_threshold = false then
    let target := jumpable_coordinates.getD state.2 (0, 0)
    (set_cell state.1 target.1 target.2 (cell_at old_world coordinate.1 coordinate.2),
      state.2 + 1)
  else if cell_at old_world coordinate.1 coordinate.2 ≠ CellType.EMPTY then
    (set_cell state.1 coordinate.1 coordinate.2 (cell_at old_world coordinate.1 coordinate.2),
      state.2)
  else state

/-- The scan of `run_one_generation`: both loops, from the all-`EMPTY` grid and `index = 0`. -/
def generation_scan (jumpable_coordinates : List Coordinate) (old_world : World)
    (happiness_threshold : Int) : World × Nat :=
  (List.range old_world.length).foldl (fun state (i : Nat) =>
    (List.range (row_at old_world 0).length).foldl (fun state (j : Nat) =>
      generation_step jumpable_coordinates old_world happiness_threshold state
        ((i : Int), (j : Int))) state) (empty_world old_world, 0)

/-- The function `run_one_generation`, with the result of `random_shuffle` given by `shuffle`. -/
def run_one_generation (shuffle : Shuffle) (old_world : World) (happiness_threshold : Int) :
    World :=
  let jumpable_coordinates := shuffle (get_jumpable_coordinates old_world happiness_threshold)
  (generation_scan jumpable_coordinates old_world happiness_threshold).1

/-! ## Simulation driver -/

/-- The function `run_finite_simulation`; iteration `i` uses the shuffle `shuffles i`. -/
def run_finite_simulation (shuffles : Nat → Shuffle) (old_world : World) (simulation_count : Int)
    (happiness_threshold : Int) : World :=
  (List.range simulation_count.toNat).foldl (fun new_world (i : Nat) =>
    run_one_generation (shuffles i) new_world happiness_threshold) old_world

/-- The `while` loop of `run_infinite_simulation`, which may run forever: `fuel` bounds the number
    of times the loop condition is evaluated, and `none` is returned when that is not enough. -/
def infinite_loop (happiness_threshold : Int) : Nat → (Nat → Shuffle) → World → Option World
  | 0, _, _ => none
  | fuel + 1, shuffles, new_world =>
    if get_unhappy_count new_world happiness_threshold ≠ 0 then
      infinite_loop happiness_threshold fuel (fun i => shuffles (i + 1))
        (run_one_generation (shuffles 0) new_world happiness_threshold)
    else some new_world

/-- The function `run_infinite_simulation`; it ignores `simulation_count`. -/
def run_infinite_simulation (fuel : Nat) (shuffles : Nat → Shuffle) (old_world : World)
    (_simulation_count : Int) (happiness_threshold : Int) : Option World :=
  infinite_loop happiness_threshold fuel shuffles old_world

/-- The constant `INFINITE_SIMULATION`. -/
def INFINITE_SIMULATION : Int := 0

/-- The function `run_simulation`. -/
def run_simulation (fuel : Nat) (shuffles : Nat → Shuffle) (old_world : World)
    (simulation_count : Int) (happiness_threshold : Int) : Option World :=
  if simulation_count = INFINITE_SIMULATION then
    run_infinite_simulation fuel shuffles old_world simulation_count happiness_threshold
  else
    some (run_finite_simulation shuffles old_world simulation_count happiness_threshold)

/-! ## Grid loader -/

/-- The constant `RED_REPRESENTATION`. -/
def RED_REPRESENTATION : Char := 'R'

/-- The constant `BLUE_REPRESENTATION`. -/
def BLUE_REPRESENTATION : Char := 'B'

/-- The constant `EMPTY_REPRESENTATION`. -/
def EMPTY_REPRESENTATION : Char := 'E'

/-- The function `get_cell_type_from_char`. -/
def get_cell_type_from_char (cell : Char) : CellType :=
  if cell = RED_REPRESENTATION then CellType.RED
  else if cell = BLUE_REPRESENTATION then CellType.BLUE
  else CellType.EMPTY

/-- The function `get_char_from_cell_type`. -/
def get_char_from_cell_type (cell : CellType) : Char :=
  if cell = CellType.RED then RED_REPRESENTATION
  else if cell = CellType.BLUE then BLUE_REPRESENTATION
  else EMPTY_REPRESENTATION

/-- The function `get_world_from_file`, applied to the lines that `getline` reads from the file,
    in order; a line is its sequence of characters. The read `line[i]` is always inside the
    line, so the default of `getD` is never used. -/
def get_world_from_file (lines : List (List Char)) : World :=
  lines.foldl (fun world line =>
    world ++ [(List.range line.length).foldl (fun row (i : Nat) =>
      row ++ [get_cell_type_from_char (line.getD i EMPTY_REPRESENTATION)]) []]) []

/-! ## Vocabulary of the properties -/

/-- Width of the grid as the program reads it: `world[0].size()`. -/
def width (world : World) : Nat := (row_at world 0).length

/-- Every row has the length of the first row. -/
def Rectangular (world : World) : Prop := ∀ r ∈ world, r.length = width world

instance (world : World) : Decidable (Rectangular world) :=
  inferInstanceAs (Decidable (∀ r ∈ world, r.length = width world))

/-- Row-major list of the coordinates of a grid with `rows` rows and `cols` columns:
    the order in which the nested `for` loops visit them. -/
def scan_order (rows cols : Nat) : List Coordinate :=
  (List.range rows).flatMap fun (i : Nat) =>
    (List.range cols).map fun (j : Nat) => ((i : Int), (j : Int))

/-- The coordinates of a grid, in row-major order. -/
def coordinates (world : World) : List Coordinate :=
  scan_order world.length (width world)

/-- A shuffle returns a permutation of its argument. -/
def IsShuffle (shuffle : Shuffle) : Prop := ∀ l, (shuffle l).Perm l

/-- The values of the occupied cells of a grid, row by row. -/
def occupied_values (world : World) : List CellType :=
  world.flatten.filter fun v => decide (v ≠ CellType.EMPTY)

/-- The state `(new_world, index)` of the scan of `run_one_generation` after the cells of
    `visited` have been processed in order. -/
def scan_state (jumpable_coordinates : List Coordinate) (old_world : World)
    (happiness_threshold : Int) (visited : List Coordinate) : World × Nat :=
  visited.foldl (generation_step jumpable_coordinates old_world happiness_threshold)
    (empty_world old_world, 0)

/-- The four von Neumann positions around a coordinate. -/
def von_neumann (coordinate : Coordinate) : List Coordinate :=
  [(coordinate.1 - 1, coordinate.2), (coordinate.1 + 1, coordinate.2),
   (coordinate.1, coordinate.2 - 1), (coordinate.1, coordinate.2 + 1)]

/-- The von Neumann positions of a coordinate that lie inside the grid. -/
def inside_neighbours (coordinate : Coordinate) (world : World) : List Coordinate :=
  (von_neumann coordinate).filter fun n => is_inside n.1 n.2 world

/-- The inside neighbours whose cell is `EMPTY` or equal to the cell at the coordinate. -/
def acceptable_neighbours (coordinate : Coordinate) (world : World) : List Coordinate :=
  (inside_neighbours coordinate world).filter fun n =>
    decide (cell_at world n.1 n.2 = CellType.EMPTY
      ∨ cell_at world n.1 n.2 = cell_at world coordinate.1 coordinate.2)

/-- Row-major (lexicographic) order on coordinates. -/
def row_major_lt (a b : Coordinate) : Prop := a.1 < b.1 ∨ (a.1 = b.1 ∧ a.2 < b.2)

/-- The test of `get_jumpable_coordinates` at a coordinate. -/
def jumpable_test (world : World) (happiness_threshold : Int) (c : Coordinate) : Bool :=
  decide (is_happy c world happiness_threshold = false ∨ cell_at world c.1 c.2 = CellType.EMPTY)

/-- The test of `get_unhappy_count` at a coordinate. -/
def unhappy_test (world : World) (happiness_threshold : Int) (c : Coordinate) : Bool :=
  decide (cell_at world c.1 c.2 ≠ CellType.EMPTY ∧ is_happy c world happiness_threshold = false)

/-- A grid with `rows` rows, each of `cols` cells. -/
def Shape (world : World) (rows cols : Nat) : Prop :=
  world.length = rows ∧ ∀ r ∈ world, r.length = cols

/-- The cells among `visited` that the scan of `run_one_generation` relocates: those for which
    `is_happy` is false, whether occupied or `EMPTY`. -/
def movers (old_world : World) (happiness_threshold : Int) (visited : List Coordinate) :
    List Coordinate :=
  visited.filter fun c => !is_happy c old_world happiness_threshold

/-- The invariant of the scan of `run_one_generation` after the cells of `visited`. -/
structure ScanInv (p : List Coordinate) (old_world : World) (t : Int)
    (visited : List Coordinate) (state : World × Nat) : Prop where
  index_eq : state.2 = (movers old_world t visited).length
  shape : Shape state.1 old_world.length (width old_world)
  moved : ∀ k, k < state.2 →
    cell_at state.1 (p.getD k (0, 0)).1 (p.getD k (0, 0)).2
      = cell_at old_world ((movers old_world t visited).getD k (0, 0)).1
          ((movers old_world t visited).getD k (0, 0)).2
  stayed : ∀ c ∈ visited, is_happy c old_world t = true →
    cell_at old_world c.1 c.2 ≠ CellType.EMPTY →
    cell_at state.1 c.1 c.2 = cell_at old_world c.1 c.2
  others : ∀ c ∈ coordinates old_world, (∀ k, k < state.2 → p.getD k (0, 0) ≠ c) →
    ¬ (c ∈ visited ∧ is_happy c old_world t = true ∧ cell_at old_world c.1 c.2 ≠ CellType.EMPTY) →
    cell_at state.1 c.1 c.2 = CellType.EMPTY
  counts : ∀ b, b ≠ CellType.EMPTY →
    List.count b state.1.flatten
      = List.count b (visited.map fun c => cell_at old_world c.1 c.2)

/-- A sample grid: two rows of three cells, `RRB` over `EBE`. -/
def sample_world : World :=
  [[CellType.RED, CellType.RED, CellType.BLUE], [CellType.EMPTY, CellType.BLUE, CellType.EMPTY]]

/-- A converged sample grid at threshold 50 whose `EMPTY` cell is not happy: `RER`. -/
def converged_world : World := [[CellType.RED, CellType.EMPTY, CellType.RED]]

/-- The sequence of successive generations: `generations shuffles world t k` is the grid after
    `k` applications of `run_one_generation`, the application numbered `i` using `shuffles i`. -/
def generations (shuffles : Nat → Shuffle) (world : World) (t : Int) : Nat → World
  | 0 => world
  | k + 1 => run_one_generation (shuffles k) (generations shuffles world t k) t

/-- The binary64 value `(double)a / (double)n * 100` returned by `calculate_happiness` when its
    counters end at `similar_neighbours_count = a` and `neighbours_count = n`. -/
def percent (a n : Nat) : Double :=
  Double.mul (Double.div (Double.of_count a) (Double.of_count n)) (Double.of_count 100)

/-- The body of the double loop of `calculate_happiness` at the neighbour position `n`. -/
def neighbour_step (coordinate : Coordinate) (world : World) (counts : Nat × Nat)
    (n : Coordinate) : Nat × Nat :=
  if is_inside n.1 n.2 world then
    if cell_at world coordinate.1 coordinate.2 = cell_at world n.1 n.2
        ∨ cell_at world n.1 n.2 = CellType.EMPTY then
      (counts.1 + 1, counts.2 + 1)
    else (counts.1 + 1, counts.2)
  else counts

/-- The scan body as the specification words it: only a cell that is occupied and unhappy writes
    its value at `jumpable[index]` and advances `index`; a happy occupied cell is copied to its
    own coordinate; an `EMPTY` cell writes nothing and leaves `index` as it is. -/
def spec_generation_step (jumpable_coordinates : List Coordinate) (old_world : World)
    (happiness_threshold : Int) (state : World × Nat) (coordinate : Coordinate) : World × Nat :=
  if cell_at old_world coordinate.1 coordinate.2 ≠ CellType.EMPTY
      ∧ is_happy coordinate old_world happiness_threshold = false then
    let target := jumpable_coordinates.getD state.2 (0, 0)
    (set_cell state.1 target.1 target.2 (cell_at old_world coordinate.1 coordinate.2),
      state.2 + 1)
  else if cell_at old_world coordinate.1 coordinate.2 ≠ CellType.EMPTY then
    (set_cell state.1 coordinate.1 coordinate.2 (cell_at old_world coordinate.1 coordinate.2),
      state.2)
  else state

/-- The generation stepper as the specification words it: from the all-`EMPTY` grid of the same
    dimensions and the cursor 0, scan the input in row-major order with
    `spec_generation_step`, reading slots from the shuffled jumpable list. -/
def spec_run_one_generation (shuffle : Shuffle) (old_world : World) (happiness_threshold : Int) :
    World :=
  ((coordinates old_world).foldl
    (spec_generation_step (shuffle (get_jumpable_coordinates old_world happiness_threshold))
      old_world happiness_threshold)
    (List.replicate old_world.length (List.replicate (width old_world) CellType.EMPTY), 0)).1

/-- A sample grid whose `EMPTY` cell is not happy at threshold 100 and comes first: `ERB`. -/
def erb_world : World := [[CellType.EMPTY, CellType.RED, CellType.BLUE]]

/-- The scenario grid `RB`: one row, `RED` then `BLUE`. -/
def rb_world : World := [[CellType.RED, CellType.BLUE]]

/-- The scenario grid of three rows and three columns, all `RED` except `BLUE` at `(1, 1)`. -/
def centre_blue_world : World :=
  [[CellType.RED, CellType.RED, CellType.RED], [CellType.RED, CellType.BLUE, CellType.RED],
   [CellType.RED, CellType.RED, CellType.RED]]

/-! ## Loops as folds over the scan order -/

theorem foldl_scan_order {β : Type} (f : β → Coordinate → β) (b : β) (rows cols : Nat) :
    (List.range rows).foldl (fun s (i : Nat) =>
      (List.range cols).foldl (fun s (j : Nat) => f s ((i : Int), (j : Int))) s) b
      = (scan_order rows cols).foldl f b := by
  unfold scan_order
  rw [List.flatMap_def, List.foldl_flatten, List.foldl_map]
  congr 1
  funext s i
  rw [List.foldl_map]

theorem mem_scan_order {rows cols : Nat} {c : Coordinate} :
    c ∈ scan_order rows cols ↔ ∃ i j : Nat, i < rows ∧ j < cols ∧ c = ((i : Int), (j : Int)) := by
  unfold scan_order
  simp only [List.mem_flatMap, List.mem_range, List.mem_map]
  constructor
  · rintro ⟨i, hi, j, hj, rfl⟩
    exact ⟨i, j, hi, hj, rfl⟩
  · rintro ⟨i, j, hi, hj, rfl⟩
    exact ⟨i, hi, j, hj, rfl⟩

theorem pairwise_scan_order (rows cols : Nat) :
    (scan_order rows cols).Pairwise row_major_lt := by
  unfold scan_order
  rw [List.pairwise_flatMap]
  constructor
  · intro i _
    rw [List.pairwise_map]
    refine (List.pairwise_lt_range cols).imp ?_
    intro a b hab
    right
    exact ⟨rfl, by simpa using hab⟩
  · refine (List.pairwise_lt_range rows).imp ?_
    intro a b hab x hx y hy
    simp only [List.mem_map, List.mem_range] at hx hy
    obtain ⟨_, _, rfl⟩ := hx
    obtain ⟨_, _, rfl⟩ := hy
    left
    simpa using hab

theorem row_major_lt_irrefl (a : Coordinate) : ¬ row_major_lt a a := by
  unfold row_major_lt
  omega

theorem nodup_scan_order (rows cols : Nat) : (scan_order rows cols).Nodup := by
  refine (pairwise_scan_order rows cols).imp ?_
  intro a b hab heq
  subst heq
  exact row_major_lt_irrefl a hab

theorem is_inside_iff {x y : Int} {world : World} :
    is_inside x y world = true ↔ (x, y) ∈ coordinates world := by
  unfold is_inside coordinates width
  rw [mem_scan_order]
  simp only [Bool.and_eq_true, decide_eq_true_eq, Prod.mk.injEq]
  constructor
  · rintro ⟨⟨⟨h1, h2⟩, h3⟩, h4⟩
    refine ⟨x.toNat, y.toNat, ?_, ?_, ?_, ?_⟩ <;> omega
  · rintro ⟨i, j, hi, hj, rfl, rfl⟩
    refine ⟨⟨⟨?_, ?_⟩, ?_⟩, ?_⟩ <;> omega

theorem foldl_push_if {α : Type} (P : α → Prop) [DecidablePred P] (l init : List α) :
    l.foldl (fun acc c => if P c then acc ++ [c] else acc) init
      = init ++ l.filter (fun c => decide (P c)) := by
  induction l generalizing init with
  | nil => simp
  | cons a l ih =>
    rw [List.foldl_cons, ih]
    by_cases h : P a <;> simp [h, List.filter_cons]

theorem foldl_count_if {α : Type} (P : α → Prop) [DecidablePred P] (l : List α) (init : Nat) :
    l.foldl (fun n c => if P c then n + 1 else n) init
      = init + l.countP (fun c => decide (P c)) := by
  induction l generalizing init with
  | nil => simp
  | cons a l ih =>
    rw [List.foldl_cons, ih]
    by_cases h : P a
    · simp [h, List.countP_cons]; omega
    · simp [h, List.countP_cons]

theorem get_jumpable_coordinates_eq (world : World) (t : Int) :
    get_jumpable_coordinates world t = (coordinates world).filter (jumpable_test world t) := by
  unfold get_jumpable_coordinates coordinates width
  rw [foldl_scan_order (fun coordinates c =>
    if is_happy c world t = false ∨ cell_at world c.1 c.2 = CellType.EMPTY then
      coordinates ++ [c] else coordinates)]
  rw [foldl_push_if]
  rfl

theorem row_at_length {world : World} (hrect : Rectangular world) {i : Nat}
    (hi : i < world.length) : (row_at world (i : Int)).length = width world := by
  apply hrect
  unfold row_at
  rw [Int.toNat_ofNat, List.getD_eq_getElem _ _ hi]
  exact List.getElem_mem hi

theorem get_unhappy_count_eq {world : World} (hrect : Rectangular world) (t : Int) :
    get_unhappy_count world t = (coordinates world).countP (unhappy_test world t) := by
  unfold get_unhappy_count
  have hcongr : (List.range world.length).foldl (fun unhappy_count (i : Nat) =>
      (List.range (row_at world i).length).foldl (fun unhappy_count (j : Nat) =>
        if cell_at world i j ≠ CellType.EMPTY
            ∧ is_happy ((i : Int), (j : Int)) world t = false then
          unhappy_count + 1
        else unhappy_count) unhappy_count) 0
      = (List.range world.length).foldl (fun unhappy_count (i : Nat) =>
      (List.range (width world)).foldl (fun unhappy_count (j : Nat) =>
        if cell_at world i j ≠ CellType.EMPTY
            ∧ is_happy ((i : Int), (j : Int)) world t = false then
          unhappy_count + 1
        else unhappy_count) unhappy_count) 0 := by
    apply List.foldl_ext
    intro a i hi
    rw [row_at_length hrect (List.mem_range.mp hi)]
  rw [hcongr]
  rw [foldl_scan_order (fun unhappy_count c =>
    if cell_at world c.1 c.2 ≠ CellType.EMPTY ∧ is_happy c world t = false then
      unhappy_count + 1 else unhappy_count)]
  rw [foldl_count_if, Nat.zero_add]
  rfl

theorem empty_world_eq (old_world : World) :
    empty_world old_world
      = List.replicate old_world.length (List.replicate (width old_world) CellType.EMPTY) := by
  unfold empty_world
  have h : ∀ (l : List Nat) (init : World) (r : List CellType),
      l.foldl (fun new_world _ => new_world ++ [r]) init = init ++ List.replicate l.length r := by
    intro l
    induction l with
    | nil => simp
    | cons a l ih =>
      intro init r
      rw [List.foldl_cons, ih, List.length_cons, List.replicate_succ, List.append_assoc]
      rfl
  rw [h]
  simp [width]

theorem generation_scan_eq (p : List Coordinate) (old_world : World) (t : Int) :
    generation_scan p old_world t = scan_state p old_world t (coordinates old_world) := by
  unfold generation_scan scan_state coordinates width
  rw [foldl_scan_order (generation_step p old_world t)]

/-! ## Reading and writing cells -/

theorem shape_of_rectangular {world : World} (hrect : Rectangular world) :
    Shape world world.length (width world) :=
  ⟨rfl, hrect⟩

theorem shape_set_cell {world : World} {rows cols : Nat} (h : Shape world rows cols)
    (x y : Int) (v : CellType) : Shape (set_cell world x y v) rows cols := by
  obtain ⟨hlen, hrows⟩ := h
  unfold set_cell
  refine ⟨by rw [List.length_set, hlen], ?_⟩
  intro r hr
  by_cases hx : x.toNat < world.length
  · rcases List.mem_or_eq_of_mem_set hr with hmem | rfl
    · exact hrows r hmem
    · rw [List.length_set]
      unfold row_at
      rw [List.getD_eq_getElem _ _ hx]
      exact hrows _ (List.getElem_mem hx)
  · rw [List.set_eq_of_length_le (Nat.le_of_not_lt hx)] at hr
    exact hrows r hr

theorem cell_at_set_cell_same {world : World} {rows cols : Nat} (h : Shape world rows cols)
    {c : Coordinate} (hc : c ∈ scan_order rows cols) (v : CellType) :
    cell_at (set_cell world c.1 c.2 v) c.1 c.2 = v := by
  obtain ⟨hlen, hrows⟩ := h
  obtain ⟨i, j, hi, hj, rfl⟩ := mem_scan_order.mp hc
  have hi2 : i < world.length := by omega
  have hj2 : j < (world[i]).length := by
    rw [hrows _ (List.getElem_mem hi2)]; exact hj
  unfold cell_at set_cell row_at
  simp only [Int.toNat_ofNat, List.getD_eq_getElem?_getD]
  rw [List.getElem?_set_self hi2, List.getElem?_eq_getElem hi2]
  simp only [Option.getD_some]
  rw [List.getElem?_set_self hj2]
  rfl

theorem cell_at_set_cell_ne (world : World) {rows cols : Nat} {a b : Coordinate}
    (ha : a ∈ scan_order rows cols) (hb : b ∈ scan_order rows cols) (hab : a ≠ b)
    (v : CellType) :
    cell_at (set_cell world a.1 a.2 v) b.1 b.2 = cell_at world b.1 b.2 := by
  obtain ⟨i, j, _, _, rfl⟩ := mem_scan_order.mp ha
  obtain ⟨k, l, _, _, rfl⟩ := mem_scan_order.mp hb
  unfold cell_at set_cell row_at
  simp only [Int.toNat_ofNat, List.getD_eq_getElem?_getD]
  by_cases hik : i = k
  · subst hik
    have hjl : j ≠ l := by
      intro h; subst h; exact hab rfl
    by_cases hi : i < world.length
    · rw [List.getElem?_set_self hi, List.getElem?_eq_getElem hi]
      simp only [Option.getD_some]
      rw [List.getElem?_set_ne hjl]
    · rw [List.set_eq_of_length_le (Nat.le_of_not_lt hi)]
  · rw [List.getElem?_set_ne hik]

theorem count_flatten_set {α : Type} [DecidableEq α] (b : α) (w : List (List α)) (i : Nat)
    (r : List α) (hi : i < w.length) :
    List.count b (w.set i r).flatten + List.count b w[i]
      = List.count b w.flatten + List.count b r := by
  induction w generalizing i with
  | nil => simp at hi
  | cons r0 w ih =>
    cases i with
    | zero =>
      simp only [List.set_cons_zero, List.flatten_cons, List.count_append, List.getElem_cons_zero]
      omega
    | succ i =>
      have hi2 : i < w.length := by simpa using hi
      have := ih i hi2
      simp only [List.set_cons_succ, List.flatten_cons, List.count_append,
        List.getElem_cons_succ]
      omega

theorem count_set_cell {world : World} {rows cols : Nat} (h : Shape world rows cols)
    {c : Coordinate} (hc : c ∈ scan_order rows cols)
    (hempty : cell_at world c.1 c.2 = CellType.EMPTY) (v b : CellType)
    (hb : b ≠ CellType.EMPTY) :
    List.count b (set_cell world c.1 c.2 v).flatten
      = List.count b world.flatten + (if v = b then 1 else 0) := by
  obtain ⟨hlen, hrows⟩ := h
  obtain ⟨i, j, hi, hj, rfl⟩ := mem_scan_order.mp hc
  have hi2 : i < world.length := by omega
  have hj2 : j < (world[i]).length := by
    rw [hrows _ (List.getElem_mem hi2)]; exact hj
  unfold cell_at row_at at hempty
  simp only [Int.toNat_ofNat] at hempty
  rw [List.getD_eq_getElem _ _ hi2, List.getD_eq_getElem _ _ hj2] at hempty
  unfold set_cell row_at
  simp only [Int.toNat_ofNat]
  rw [List.getD_eq_getElem _ _ hi2]
  have h1 := count_flatten_set b world i ((world[i]).set j v) hi2
  have h2 := List.count_set v b (world[i]) j hj2
  rw [hempty] at h2
  have h3 : (CellType.EMPTY == b) = false := by
    simp only [beq_eq_false_iff_ne, ne_eq]
    exact fun e => hb e.symm
  rw [h3] at h2
  simp only [Bool.false_eq_true, if_false, Nat.sub_zero, beq_iff_eq] at h2
  omega

theorem cell_at_eq_getElem (world : World) {i j : Nat} (hi : i < world.length)
    (hj : j < (world[i]).length) : cell_at world (i : Int) (j : Int) = (world[i])[j] := by
  unfold cell_at row_at
  simp only [Int.toNat_ofNat]
  rw [List.getD_eq_getElem _ _ hi, List.getD_eq_getElem _ _ hj]

theorem map_cell_at_scan_order {world : World} {rows cols : Nat} (h : Shape world rows cols) :
    (scan_order rows cols).map (fun c => cell_at world c.1 c.2) = world.flatten := by
  obtain ⟨hlen, hrows⟩ := h
  unfold scan_order
  rw [List.map_flatMap, List.flatMap_def]
  congr 1
  apply List.ext_getElem
  · simp [hlen]
  · intro i h1 h2
    have hi : i < world.length := h2
    simp only [List.getElem_map, List.getElem_range, List.map_map]
    apply List.ext_getElem
    · simp [hrows _ (List.getElem_mem hi)]
    · intro j h3 h4
      simp only [List.getElem_map, List.getElem_range, Function.comp_apply]
      exact cell_at_eq_getElem world hi h4

theorem world_ext {w1 w2 : World} {rows cols : Nat} (h1 : Shape w1 rows cols)
    (h2 : Shape w2 rows cols)
    (h : ∀ c ∈ scan_order rows cols, cell_at w1 c.1 c.2 = cell_at w2 c.1 c.2) : w1 = w2 := by
  obtain ⟨hlen1, hrows1⟩ := h1
  obtain ⟨hlen2, hrows2⟩ := h2
  apply List.ext_getElem
  · rw [hlen1, hlen2]
  · intro i hi1 hi2
    have hc1 := hrows1 _ (List.getElem_mem hi1)
    have hc2 := hrows2 _ (List.getElem_mem hi2)
    apply List.ext_getElem
    · rw [hc1, hc2]
    · intro j hj1 hj2
      have hmem : ((i : Int), (j : Int)) ∈ scan_order rows cols :=
        mem_scan_order.mpr ⟨i, j, by omega, by omega, rfl⟩
      have := h _ hmem
      rw [cell_at_eq_getElem w1 hi1 hj1, cell_at_eq_getElem w2 hi2 hj2] at this
      exact this

theorem shape_empty_world (old_world : World) :
    Shape (empty_world old_world) old_world.length (width old_world) := by
  rw [empty_world_eq]
  refine ⟨List.length_replicate _ _, ?_⟩
  intro r hr
  rw [List.eq_of_mem_replicate hr, List.length_replicate]

theorem cell_at_empty_world (old_world : World) (x y : Int) :
    cell_at (empty_world old_world) x y = CellType.EMPTY := by
  rw [empty_world_eq]
  unfold cell_at row_at
  simp only [List.getD_eq_getElem?_getD]
  by_cases hx : x.toNat < old_world.length
  · rw [List.getElem?_replicate, if_pos hx]
    simp only [Option.getD_some]
    by_cases hy : y.toNat < width old_world
    · rw [List.getElem?_replicate, if_pos hy]
      rfl
    · rw [List.getElem?_replicate, if_neg hy]
      rfl
  · rw [List.getElem?_replicate, if_neg hx]
    rfl

theorem count_empty_world (old_world : World) {b : CellType} (hb : b ≠ CellType.EMPTY) :
    List.count b (empty_world old_world).flatten = 0 := by
  rw [List.count_eq_zero]
  intro hmem
  rw [empty_world_eq] at hmem
  obtain ⟨r, hr, hbr⟩ := List.mem_flatten.mp hmem
  rw [List.eq_of_mem_replicate hr] at hbr
  exact hb (List.eq_of_mem_replicate hbr)

/-! ## The jumpable list and its shuffles -/

theorem mem_jumpable_iff {world : World} {t : Int} {c : Coordinate} :
    c ∈ get_jumpable_coordinates world t ↔
      c ∈ coordinates world
        ∧ (is_happy c world t = false ∨ cell_at world c.1 c.2 = CellType.EMPTY) := by
  rw [get_jumpable_coordinates_eq, List.mem_filter]
  unfold jumpable_test
  simp only [decide_eq_true_eq]

theorem nodup_jumpable (world : World) (t : Int) : (get_jumpable_coordinates world t).Nodup := by
  rw [get_jumpable_coordinates_eq]
  exact (nodup_scan_order _ _).filter _

theorem movers_length_le_jumpable (world : World) (t : Int) :
    (movers world t (coordinates world)).length ≤ (get_jumpable_coordinates world t).length := by
  rw [get_jumpable_coordinates_eq]
  unfold movers
  rw [← List.countP_eq_length_filter, ← List.countP_eq_length_filter]
  apply List.countP_mono_left
  intro c _ hc
  unfold jumpable_test
  simp only [Bool.not_eq_true'] at hc
  simp only [decide_eq_true_eq]
  exact Or.inl hc

theorem movers_append (world : World) (t : Int) (l1 l2 : List Coordinate) :
    movers world t (l1 ++ l2) = movers world t l1 ++ movers world t l2 := by
  unfold movers
  exact List.filter_append _ _

theorem movers_singleton_of_unhappy {world : World} {t : Int} {c : Coordinate}
    (h : is_happy c world t = false) : movers world t [c] = [c] := by
  unfold movers
  simp [h]

theorem movers_singleton_of_happy {world : World} {t : Int} {c : Coordinate}
    (h : is_happy c world t = true) : movers world t [c] = [] := by
  unfold movers
  simp [h]

theorem index_lt_of_split {p : List Coordinate} {old_world : World} {t : Int}
    (hp : p.Perm (get_jumpable_coordinates old_world t))
    {l rest : List Coordinate} {c : Coordinate} (hsplit : l ++ c :: rest = coordinates old_world)
    (hc : is_happy c old_world t = false) :
    (movers old_world t l).length < p.length := by
  have h1 := movers_length_le_jumpable old_world t
  rw [← hsplit, movers_append] at h1
  have h2 : movers old_world t (c :: rest) = c :: movers old_world t rest := by
    unfold movers
    simp [hc]
  rw [h2, List.length_append, List.length_cons] at h1
  rw [hp.length_eq]
  omega

theorem getD_mem_of_lt {α : Type} (l : List α) (d : α) {k : Nat} (hk : k < l.length) :
    l.getD k d ∈ l := by
  rw [List.getD_eq_getElem _ _ hk]
  exact List.getElem_mem hk

theorem getD_ne_of_nodup {α : Type} {l : List α} (hl : l.Nodup) (d : α) {j k : Nat}
    (hjk : j < k) (hk : k < l.length) : l.getD j d ≠ l.getD k d := by
  rw [List.getD_eq_getElem _ _ hk, List.getD_eq_getElem _ _ (Nat.lt_trans hjk hk)]
  intro h
  have := (hl.getElem_inj_iff).mp h
  omega

/-! ## The invariant of the scan -/

theorem scan_inv_init (p : List Coordinate) (old_world : World) (t : Int) :
    ScanInv p old_world t [] (empty_world old_world, 0) where
  index_eq := rfl
  shape := shape_empty_world old_world
  moved := fun k hk => absurd hk (Nat.not_lt_zero k)
  stayed := fun c hc => absurd hc (List.not_mem_nil c)
  others := fun c _ _ _ => cell_at_empty_world old_world c.1 c.2
  counts := fun b hb => by
    rw [count_empty_world old_world hb]
    rfl

theorem scan_inv_step {p : List Coordinate} {old_world : World} {t : Int}
    (hp : p.Perm (get_jumpable_coordinates old_world t))
    {l rest : List Coordinate} {c : Coordinate} (hsplit : l ++ c :: rest = coordinates old_world)
    {s : World × Nat} (inv : ScanInv p old_world t l s) :
    ScanInv p old_world t (l ++ [c]) (generation_step p old_world t s c) := by
  have hcmem : c ∈ coordinates old_world := by
    rw [← hsplit]; simp
  have hnodup : (l ++ c :: rest).Nodup := by
    rw [hsplit]; exact nodup_scan_order _ _
  have hcl : c ∉ l := by
    intro hmem
    have := (List.nodup_append.mp hnodup).2.2
    exact this hmem (List.mem_cons_self c rest)
  have hpnodup : p.Nodup := hp.nodup_iff.mpr (nodup_jumpable old_world t)
  have hpmem : ∀ x ∈ p, x ∈ coordinates old_world
      ∧ (is_happy x old_world t = false ∨ cell_at old_world x.1 x.2 = CellType.EMPTY) :=
    fun x hx => mem_jumpable_iff.mp (hp.mem_iff.mp hx)
  have hidx_le : s.2 ≤ p.length := by
    have h1 := movers_length_le_jumpable old_world t
    rw [← hsplit, movers_append, List.length_append, ← hp.length_eq] at h1
    rw [inv.index_eq]
    omega
  unfold generation_step
  by_cases hh : is_happy c old_world t = false
  · rw [if_pos hh]
    have hidx : s.2 < p.length := by
      rw [inv.index_eq]; exact index_lt_of_split hp hsplit hh
    have htp : p.getD s.2 (0, 0) ∈ p := getD_mem_of_lt p _ hidx
    obtain ⟨htc, htj⟩ := hpmem _ htp
    have htempty : cell_at s.1 (p.getD s.2 (0, 0)).1 (p.getD s.2 (0, 0)).2 = CellType.EMPTY := by
      apply inv.others _ htc
      · intro k hk
        exact getD_ne_of_nodup hpnodup _ hk hidx
      · rintro ⟨_, h1, h2⟩
        rcases htj with h | h
        · rw [h] at h1; exact Bool.false_ne_true h1
        · exact h2 h
    have hmov : movers old_world t (l ++ [c]) = movers old_world t l ++ [c] := by
      rw [movers_append, movers_singleton_of_unhappy hh]
    refine ⟨?_, ?_, ?_, ?_, ?_, ?_⟩
    · show s.2 + 1 = _
      rw [hmov, List.length_append, inv.index_eq]
      rfl
    · exact shape_set_cell inv.shape _ _ _
    · intro k hk
      show cell_at (set_cell s.1 _ _ _) _ _ = _
      rw [hmov]
      by_cases hks : k = s.2
      · subst hks
        rw [cell_at_set_cell_same inv.shape htc]
        have : (movers old_world t l ++ [c]).getD s.2 (0, 0) = c := by
          rw [inv.index_eq]
          simp
        rw [this]
      · have hk2 : k < s.2 := by
          have : k < s.2 + 1 := hk
          omega
        have hkp : p.getD k (0, 0) ∈ p := getD_mem_of_lt p _ (by omega)
        rw [cell_at_set_cell_ne s.1 htc (hpmem _ hkp).1
          (getD_ne_of_nodup hpnodup _ hk2 hidx).symm, inv.moved k hk2]
        have hk3 : k < (movers old_world t l).length := by
          rw [← inv.index_eq]; exact hk2
        rw [List.getD_eq_getElem _ _ hk3,
          List.getD_eq_getElem _ _ (by rw [List.length_append]; omega),
          List.getElem_append_left hk3]
    · intro c1 hc1 hhappy hocc
      show cell_at (set_cell s.1 _ _ _) _ _ = _
      have hc1l : c1 ∈ l := by
        rcases List.mem_append.mp hc1 with h | h
        · exact h
        · rw [List.mem_singleton.mp h, hh] at hhappy
          exact absurd hhappy Bool.false_ne_true
      have hne : p.getD s.2 (0, 0) ≠ c1 := by
        intro heq
        rw [heq] at htj
        rcases htj with h | h
        · rw [h] at hhappy; exact Bool.false_ne_true hhappy
        · exact hocc h
      have hc1c : c1 ∈ coordinates old_world := by
        rw [← hsplit]; exact List.mem_append_left _ hc1l
      rw [cell_at_set_cell_ne s.1 htc hc1c hne, inv.stayed c1 hc1l hhappy hocc]
    · intro c1 hc1 hk hnot
      show cell_at (set_cell s.1 _ _ _) _ _ = _
      have hne : p.getD s.2 (0, 0) ≠ c1 := hk s.2 (Nat.lt_succ_self _)
      rw [cell_at_set_cell_ne s.1 htc hc1 hne]
      apply inv.others c1 hc1
      · intro k hk2
        exact hk k (Nat.lt_succ_of_lt hk2)
      · rintro ⟨h1, h2, h3⟩
        exact hnot ⟨List.mem_append_left _ h1, h2, h3⟩
    · intro b hb
      show List.count b (set_cell s.1 _ _ _).flatten = _
      rw [count_set_cell inv.shape htc htempty _ b hb, inv.counts b hb, List.map_append,
        List.count_append, List.map_singleton, List.count_singleton]
      simp only [beq_iff_eq]
  · have hhappy : is_happy c old_world t = true := by
      simpa using hh
    rw [if_neg hh]
    have hmov : movers old_world t (l ++ [c]) = movers old_world t l := by
      rw [movers_append, movers_singleton_of_happy hhappy, List.append_nil]
    by_cases hocc : cell_at old_world c.1 c.2 ≠ CellType.EMPTY
    · rw [if_pos hocc]
      have hcp : ∀ k, k < s.2 → p.getD k (0, 0) ≠ c := by
        intro k hk heq
        have hkp : p.getD k (0, 0) ∈ p := getD_mem_of_lt p _ (by omega)
        rw [heq] at hkp
        rcases (hpmem _ hkp).2 with h | h
        · rw [h] at hhappy; exact Bool.false_ne_true hhappy
        · exact hocc h
      have hcempty : cell_at s.1 c.1 c.2 = CellType.EMPTY := by
        apply inv.others c hcmem hcp
        rintro ⟨h1, _, _⟩
        exact hcl h1
      refine ⟨?_, ?_, ?_, ?_, ?_, ?_⟩
      · show s.2 = _
        rw [hmov, inv.index_eq]
      · exact shape_set_cell inv.shape _ _ _
      · intro k hk
        show cell_at (set_cell s.1 _ _ _) _ _ = _
        have hk2 : k < s.2 := hk
        have hkp : p.getD k (0, 0) ∈ p := getD_mem_of_lt p _ (by omega)
        rw [hmov, cell_at_set_cell_ne s.1 hcmem (hpmem _ hkp).1 (hcp k hk2).symm,
          inv.moved k hk2]
      · intro c1 hc1 hh1 hocc1
        show cell_at (set_cell s.1 _ _ _) _ _ = _
        by_cases hc1c : c1 = c
        · subst hc1c
          exact cell_at_set_cell_same inv.shape hcmem _
        · have hc1l : c1 ∈ l := by
            rcases List.mem_append.mp hc1 with h | h
            · exact h
            · exact absurd (List.mem_singleton.mp h) hc1c
          have hc1m : c1 ∈ coordinates old_world := by
            rw [← hsplit]; exact List.mem_append_left _ hc1l
          rw [cell_at_set_cell_ne s.1 hcmem hc1m (Ne.symm hc1c), inv.stayed c1 hc1l hh1 hocc1]
      · intro c1 hc1 hk hnot
        show cell_at (set_cell s.1 _ _ _) _ _ = _
        have hne : c ≠ c1 := by
          intro heq
          subst heq
          exact hnot ⟨List.mem_append_right _ (List.mem_singleton_self c), hhappy, hocc⟩
        rw [cell_at_set_cell_ne s.1 hcmem hc1 hne]
        apply inv.others c1 hc1 hk
        rintro ⟨h1, h2, h3⟩
        exact hnot ⟨List.mem_append_left _ h1, h2, h3⟩
      · intro b hb
        show List.count b (set_cell s.1 _ _ _).flatten = _
        rw [count_set_cell inv.shape hcmem hcempty _ b hb, inv.counts b hb, List.map_append,
          List.count_append, List.map_singleton, List.count_singleton]
        simp only [beq_iff_eq]
    · rw [if_neg hocc]
      have hcE : cell_at old_world c.1 c.2 = CellType.EMPTY := by
        simpa using hocc
      refine ⟨?_, inv.shape, ?_, ?_, ?_, ?_⟩
      · rw [hmov, inv.index_eq]
      · intro k hk
        rw [hmov]
        exact inv.moved k hk
      · intro c1 hc1 hh1 hocc1
        have hc1l : c1 ∈ l := by
          rcases List.mem_append.mp hc1 with h | h
          · exact h
          · rw [List.mem_singleton.mp h] at hocc1
            exact absurd hcE hocc1
        exact inv.stayed c1 hc1l hh1 hocc1
      · intro c1 hc1 hk hnot
        apply inv.others c1 hc1 hk
        rintro ⟨h1, h2, h3⟩
        exact hnot ⟨List.mem_append_left _ h1, h2, h3⟩
      · intro b hb
        rw [inv.counts b hb, List.map_append, List.count_append, List.map_singleton,
          List.count_singleton, hcE]
        have : (CellType.EMPTY == b) = false := by
          simp only [beq_eq_false_iff_ne, ne_eq]
          exact fun e => hb e.symm
        rw [this]
        rfl

theorem scan_inv {p : List Coordinate} {old_world : World} {t : Int}
    (hp : p.Perm (get_jumpable_coordinates old_world t)) :
    ∀ (visited rest : List Coordinate), visited ++ rest = coordinates old_world →
      ScanInv p old_world t visited (scan_state p old_world t visited) := by
  intro visited
  induction visited using List.reverseRecOn with
  | nil =>
    intro _ _
    exact scan_inv_init p old_world t
  | append_singleton l c ih =>
    intro rest hsplit
    have hsplit2 : l ++ c :: rest = coordinates old_world := by
      rw [← hsplit, List.append_assoc]; rfl
    have := scan_inv_step hp hsplit2 (ih (c :: rest) hsplit2)
    unfold scan_state
    rw [List.foldl_append]
    exact this

theorem run_one_generation_eq (shuffle : Shuffle) (old_world : World) (t : Int) :
    run_one_generation shuffle old_world t
      = (scan_state (shuffle (get_jumpable_coordinates old_world t)) old_world t
          (coordinates old_world)).1 := by
  show (generation_scan _ old_world t).1 = _
  rw [generation_scan_eq]

theorem scan_inv_final {p : List Coordinate} {old_world : World} {t : Int}
    (hp : p.Perm (get_jumpable_coordinates old_world t)) :
    ScanInv p old_world t (coordinates old_world)
      (scan_state p old_world t (coordinates old_world)) :=
  scan_inv hp (coordinates old_world) [] (List.append_nil _)

theorem occupied_perm_of_counts {w1 w2 : World}
    (h : ∀ b, b ≠ CellType.EMPTY → List.count b w1.flatten = List.count b w2.flatten) :
    (occupied_values w1).Perm (occupied_values w2) := by
  rw [List.perm_iff_count]
  intro b
  unfold occupied_values
  by_cases hb : b = CellType.EMPTY
  · subst hb
    rw [List.count_eq_zero.mpr, List.count_eq_zero.mpr]
    · intro hmem
      simpa using (List.mem_filter.mp hmem).2
    · intro hmem
      simpa using (List.mem_filter.mp hmem).2
  · rw [List.count_filter (by simpa using hb), List.count_filter (by simpa using hb)]
    exact h b hb

theorem count_run_one_generation {shuffle : Shuffle} {old_world : World} (t : Int)
    (hrect : Rectangular old_world)
    (hshuffle : (shuffle (get_jumpable_coordinates old_world t)).Perm
      (get_jumpable_coordinates old_world t)) {b : CellType}
    (hb : b ≠ CellType.EMPTY) :
    List.count b (run_one_generation shuffle old_world t).flatten
      = List.count b old_world.flatten := by
  rw [run_one_generation_eq, (scan_inv_final hshuffle).counts b hb]
  unfold coordinates
  rw [map_cell_at_scan_order (shape_of_rectangular hrect)]

theorem shape_run_one_generation {shuffle : Shuffle} (old_world : World) (t : Int)
    (hshuffle : (shuffle (get_jumpable_coordinates old_world t)).Perm
      (get_jumpable_coordinates old_world t)) :
    Shape (run_one_generation shuffle old_world t) old_world.length (width old_world) := by
  rw [run_one_generation_eq]
  exact (scan_inv_final hshuffle).shape

theorem rectangular_sample_world : Rectangular sample_world := by
  intro r hr
  simp only [sample_world, List.mem_cons, List.mem_singleton, List.not_mem_nil, or_false] at hr
  rcases hr with rfl | rfl <;> rfl

theorem rectangular_converged_world : Rectangular converged_world := by
  intro r hr
  simp only [converged_world, List.mem_singleton] at hr
  subst hr
  rfl

theorem happy_of_converged {world : World} {t : Int} (hrect : Rectangular world)
    (hconv : get_unhappy_count world t = 0) {c : Coordinate} (hc : c ∈ coordinates world)
    (hocc : cell_at world c.1 c.2 ≠ CellType.EMPTY) : is_happy c world t = true := by
  rw [get_unhappy_count_eq hrect, List.countP_eq_zero] at hconv
  have := hconv c hc
  unfold unhappy_test at this
  simp only [decide_eq_true_eq, not_and, Bool.not_eq_false] at this
  exact this hocc

theorem mem_movers {world : World} {t : Int} {l : List Coordinate} {c : Coordinate} :
    c ∈ movers world t l ↔ c ∈ l ∧ is_happy c world t = false := by
  unfold movers
  simp [List.mem_filter]

theorem run_one_generation_converged {shuffle : Shuffle} {old_world : World} {t : Int}
    (hrect : Rectangular old_world)
    (hshuffle : (shuffle (get_jumpable_coordinates old_world t)).Perm
      (get_jumpable_coordinates old_world t))
    (hconv : get_unhappy_count old_world t = 0) :
    run_one_generation shuffle old_world t = old_world := by
  have inv := @scan_inv_final _ old_world t hshuffle
  apply world_ext (shape_run_one_generation old_world t hshuffle) (shape_of_rectangular hrect)
  intro c hc
  rw [run_one_generation_eq]
  by_cases hocc : cell_at old_world c.1 c.2 = CellType.EMPTY
  · rw [hocc]
    by_cases hk : ∃ k, k < (scan_state (shuffle (get_jumpable_coordinates old_world t))
        old_world t (coordinates old_world)).2
        ∧ (shuffle (get_jumpable_coordinates old_world t)).getD k (0, 0) = c
    · obtain ⟨k, hk1, hk2⟩ := hk
      have hmoved := inv.moved k hk1
      rw [hk2] at hmoved
      rw [hmoved]
      have hk3 : k < (movers old_world t (coordinates old_world)).length := by
        rw [← inv.index_eq]; exact hk1
      have hmem := getD_mem_of_lt (movers old_world t (coordinates old_world)) (0, 0) hk3
      obtain ⟨hm1, hm2⟩ := mem_movers.mp hmem
      by_contra hne
      have := happy_of_converged hrect hconv hm1 hne
      rw [hm2] at this
      exact Bool.false_ne_true this
    · apply inv.others c hc
      · intro k hk1 hk2
        exact hk ⟨k, hk1, hk2⟩
      · rintro ⟨_, _, h3⟩
        exact h3 hocc
  · exact inv.stayed c hc (happy_of_converged hrect hconv hc hocc) hocc

theorem movers_length_ne_of_splits {world : World} {t : Int} {l1 l2 r1 r2 : List Coordinate}
    {c1 c2 : Coordinate} (h : l1 ++ c1 :: r1 = l2 ++ c2 :: r2)
    (hc1 : is_happy c1 world t = false) (hc2 : is_happy c2 world t = false) (hne : c1 ≠ c2) :
    (movers world t l1).length ≠ (movers world t l2).length := by
  rcases List.append_eq_append_iff.mp h with ⟨m, hm1, hm2⟩ | ⟨m, hm1, hm2⟩
  · cases m with
    | nil =>
      simp only [List.nil_append, List.cons.injEq] at hm2
      exact absurd hm2.1 hne
    | cons x m =>
      simp only [List.cons_append, List.cons.injEq] at hm2
      obtain ⟨rfl, _⟩ := hm2
      rw [hm1, movers_append]
      have : movers world t (c1 :: m) = c1 :: movers world t m := by
        unfold movers
        simp [hc1]
      rw [this, List.length_append, List.length_cons]
      omega
  · cases m with
    | nil =>
      simp only [List.nil_append, List.cons.injEq] at hm2
      exact absurd hm2.1.symm hne
    | cons x m =>
      simp only [List.cons_append, List.cons.injEq] at hm2
      obtain ⟨rfl, _⟩ := hm2
      rw [hm1, movers_append]
      have : movers world t (c2 :: m) = c2 :: movers world t m := by
        unfold movers
        simp [hc2]
      rw [this, List.length_append, List.length_cons]
      omega

/-! ## The happiness evaluator -/

theorem neighbour_counts_fold (c : Coordinate) (world : World) :
    neighbour_counts c world
      = [(c.1 + -1, c.2 + 0), (c.1 + 0, c.2 + -1), (c.1 + 0, c.2 + 1), (c.1 + 1, c.2 + 0)].foldl
          (neighbour_step c world) (0, 0) :=
  rfl

theorem foldl_neighbour_step (c : Coordinate) (world : World) (l : List Coordinate)
    (init : Nat × Nat) :
    l.foldl (neighbour_step c world) init
      = (init.1 + l.countP (fun n => is_inside n.1 n.2 world),
          init.2 + l.countP (fun n => is_inside n.1 n.2 world
            && decide (cell_at world n.1 n.2 = CellType.EMPTY
              ∨ cell_at world n.1 n.2 = cell_at world c.1 c.2))) := by
  induction l generalizing init with
  | nil => rfl
  | cons n l ih =>
    rw [List.foldl_cons, ih]
    unfold neighbour_step
    by_cases h1 : is_inside n.1 n.2 world = true
    · by_cases h2 : cell_at world c.1 c.2 = cell_at world n.1 n.2
          ∨ cell_at world n.1 n.2 = CellType.EMPTY
      · have h3 : cell_at world n.1 n.2 = CellType.EMPTY
            ∨ cell_at world n.1 n.2 = cell_at world c.1 c.2 := by
          rcases h2 with h | h
          · exact Or.inr h.symm
          · exact Or.inl h
        simp only [h1, h2, h3, if_true, List.countP_cons, Bool.true_and, decide_True]
        ext <;> simp <;> omega
      · have h3 : ¬ (cell_at world n.1 n.2 = CellType.EMPTY
            ∨ cell_at world n.1 n.2 = cell_at world c.1 c.2) := by
          rintro (h | h)
          · exact h2 (Or.inr h)
          · exact h2 (Or.inl h.symm)
        simp only [h1, h2, h3, if_true, if_false, List.countP_cons, Bool.true_and, decide_False]
        ext <;> simp
        omega
    · simp only [h1, if_false, List.countP_cons, Bool.false_and]
      simp

theorem loop_positions_perm (c : Coordinate) :
    [(c.1 + -1, c.2 + 0), (c.1 + 0, c.2 + -1), (c.1 + 0, c.2 + 1), (c.1 + 1, c.2 + 0)].Perm
      (von_neumann c) := by
  unfold von_neumann
  have h : [(c.1 + -1, c.2 + 0), (c.1 + 0, c.2 + -1), (c.1 + 0, c.2 + 1), (c.1 + 1, c.2 + 0)]
      = (c.1 - 1, c.2) :: ([(c.1, c.2 - 1), (c.1, c.2 + 1)] ++ [(c.1 + 1, c.2)]) := by
    simp [sub_eq_add_neg]
  rw [h]
  exact List.Perm.cons _ List.perm_append_comm

theorem neighbour_counts_eq (c : Coordinate) (world : World) :
    neighbour_counts c world
      = ((inside_neighbours c world).length, (acceptable_neighbours c world).length) := by
  rw [neighbour_counts_fold, foldl_neighbour_step]
  unfold acceptable_neighbours inside_neighbours
  rw [List.filter_filter, ← List.countP_eq_length_filter, ← List.countP_eq_length_filter,
    (loop_positions_perm c).countP_eq, (loop_positions_perm c).countP_eq]
  simp only [Nat.zero_add, Bool.and_comm]

theorem calculate_happiness_eq (c : Coordinate) (world : World) :
    calculate_happiness c world
      = percent (acceptable_neighbours c world).length (inside_neighbours c world).length := by
  unfold calculate_happiness
  rw [neighbour_counts_eq]
  rfl

theorem inside_neighbours_length_le (c : Coordinate) (world : World) :
    (inside_neighbours c world).length ≤ 4 := by
  unfold inside_neighbours
  exact (List.length_filter_le _ _).trans (by simp [von_neumann])

theorem acceptable_neighbours_length_le (c : Coordinate) (world : World) :
    (acceptable_neighbours c world).length ≤ (inside_neighbours c world).length := by
  unfold acceptable_neighbours
  exact List.length_filter_le _ _

theorem percent_table :
    percent 0 1 = Double.finite 0 0 ∧ percent 1 1 = Double.finite 7036874417766400 (-46)
      ∧ percent 0 2 = Double.finite 0 0 ∧ percent 1 2 = Double.finite 7036874417766400 (-47)
      ∧ percent 2 2 = Double.finite 7036874417766400 (-46)
      ∧ percent 0 3 = Double.finite 0 0 ∧ percent 1 3 = Double.finite 4691249611844266 (-47)
      ∧ percent 2 3 = Double.finite 4691249611844266 (-46)
      ∧ percent 3 3 = Double.finite 7036874417766400 (-46)
      ∧ percent 0 4 = Double.finite 0 0 ∧ percent 1 4 = Double.finite 7036874417766400 (-48)
      ∧ percent 2 4 = Double.finite 7036874417766400 (-47)
      ∧ percent 3 4 = Double.finite 5277655813324800 (-46)
      ∧ percent 4 4 = Double.finite 7036874417766400 (-46) := by
  decide

theorem percent_zero_zero : percent 0 0 = Double.nan := by
  decide

theorem percent_props (a n : Nat) (hn : 1 ≤ n) (hn4 : n ≤ 4) (ha : a ≤ n) :
    ∃ v : ℚ, (percent a n).toRat = some v ∧ 0 ≤ v ∧ v ≤ 100
      ∧ |v - 100 * (a : ℚ) / (n : ℚ)| ≤ 1 / 2 ^ 46
      ∧ ((n ≠ 3 ∨ a = 0 ∨ a = 3) → v = 100 * (a : ℚ) / (n : ℚ))
      ∧ (∀ t : Int, Double.ge_int (percent a n) t = true ↔ t * (n : Int) ≤ 100 * (a : Int)) := by
  obtain ⟨h01, h11, h02, h12, h22, h03, h13, h23, h33, h04, h14, h24, h34, h44⟩ := percent_table
  interval_cases n <;> interval_cases a <;>
    simp only [h01, h11, h02, h12, h22, h03, h13, h23, h33, h04, h14, h24, h34, h44] <;>
    refine ⟨_, rfl, ?_, ?_, ?_, ?_, ?_⟩ <;>
    first
      | (norm_num [abs_le]; done)
      | (intro t
         simp only [Double.ge_int, decide_eq_true_eq, Int.reduceNeg, Int.reduceToNat, neg_neg]
         (try norm_num)
         (try omega))

theorem happiness_props (c : Coordinate) (world : World)
    (hn : 1 ≤ (inside_neighbours c world).length) :
    ∃ v : ℚ, (calculate_happiness c world).toRat = some v ∧ 0 ≤ v ∧ v ≤ 100
      ∧ |v - 100 * ((acceptable_neighbours c world).length : ℚ)
            / ((inside_neighbours c world).length : ℚ)| ≤ 1 / 2 ^ 46
      ∧ (((inside_neighbours c world).length ≠ 3 ∨ (acceptable_neighbours c world).length = 0
            ∨ (acceptable_neighbours c world).length = 3) →
          v = 100 * ((acceptable_neighbours c world).length : ℚ)
            / ((inside_neighbours c world).length : ℚ))
      ∧ (∀ t : Int, is_happy c world t = true ↔
          t * ((inside_neighbours c world).length : Int)
            ≤ 100 * ((acceptable_neighbours c world).length : Int)) := by
  unfold is_happy
  rw [calculate_happiness_eq]
  exact percent_props _ _ hn (inside_neighbours_length_le c world)
    (acceptable_neighbours_length_le c world)

theorem cell_at_empty_or_mem (world : World) (x y : Int) :
    cell_at world x y = CellType.EMPTY ∨ ∃ r ∈ world, cell_at world x y ∈ r := by
  unfold cell_at row_at
  by_cases hx : x.toNat < world.length
  · rw [List.getD_eq_getElem _ _ hx]
    by_cases hy : y.toNat < (world[x.toNat]).length
    · right
      refine ⟨_, List.getElem_mem hx, ?_⟩
      rw [List.getD_eq_getElem _ _ hy]
      exact List.getElem_mem hy
    · left
      exact List.getD_eq_default _ _ (Nat.le_of_not_lt hy)
  · left
    rw [List.getD_eq_default _ _ (Nat.le_of_not_lt hx)]
    rfl

theorem unhappy_count_le_occupied {world : World} (hrect : Rectangular world) (t : Int) :
    get_unhappy_count world t ≤ (occupied_values world).length := by
  rw [get_unhappy_count_eq hrect]
  unfold occupied_values coordinates
  rw [← map_cell_at_scan_order (shape_of_rectangular hrect), ← List.countP_eq_length_filter,
    List.countP_map]
  apply List.countP_mono_left
  intro c _ hc
  unfold unhappy_test at hc
  simp only [decide_eq_true_eq] at hc
  simpa using hc.1

/-! ## The simulation driver -/

theorem run_finite_simulation_eq (shuffles : Nat → Shuffle) (old_world : World) (k : Int)
    (t : Int) :
    run_finite_simulation shuffles old_world k t = generations shuffles old_world t k.toNat := by
  unfold run_finite_simulation
  induction k.toNat with
  | zero => rfl
  | succ n ih =>
    rw [List.range_succ, List.foldl_append, ih]
    rfl

theorem generations_shift (shuffles : Nat → Shuffle) (world : World) (t : Int) (k : Nat) :
    generations (fun i => shuffles (i + 1)) (run_one_generation (shuffles 0) world t) t k
      = generations shuffles world t (k + 1) := by
  induction k with
  | zero => rfl
  | succ n ih =>
    show run_one_generation (shuffles (n + 1)) (generations _ _ t n) t = _
    rw [ih]
    rfl

theorem infinite_loop_eq_some_iff (t : Int) (fuel : Nat) :
    ∀ (shuffles : Nat → Shuffle) (world result : World),
      infinite_loop t fuel shuffles world = some result ↔
        ∃ k, k < fuel ∧ get_unhappy_count (generations shuffles world t k) t = 0
          ∧ (∀ j, j < k → get_unhappy_count (generations shuffles world t j) t ≠ 0)
          ∧ result = generations shuffles world t k := by
  induction fuel with
  | zero =>
    intro shuffles world result
    constructor
    · intro h
      exact absurd h (by simp [infinite_loop])
    · rintro ⟨k, hk, _⟩
      exact absurd hk (Nat.not_lt_zero k)
  | succ fuel ih =>
    intro shuffles world result
    unfold infinite_loop
    by_cases h : get_unhappy_count world t ≠ 0
    · rw [if_pos h, ih]
      constructor
      · rintro ⟨k, hk, hconv, hfirst, hres⟩
        refine ⟨k + 1, Nat.succ_lt_succ hk, ?_, ?_, ?_⟩
        · rw [← generations_shift]; exact hconv
        · intro j hj
          cases j with
          | zero => exact h
          | succ j =>
            rw [← generations_shift]
            exact hfirst j (Nat.lt_of_succ_lt_succ hj)
        · rw [← generations_shift]; exact hres
      · rintro ⟨k, hk, hconv, hfirst, hres⟩
        cases k with
        | zero => exact absurd hconv h
        | succ k =>
          refine ⟨k, Nat.lt_of_succ_lt_succ hk, ?_, ?_, ?_⟩
          · rw [generations_shift]; exact hconv
          · intro j hj
            rw [generations_shift]
            exact hfirst (j + 1) (Nat.succ_lt_succ hj)
          · rw [generations_shift]; exact hres
    · rw [if_neg h]
      have h0 : get_unhappy_count world t = 0 := by
        simpa using h
      constructor
      · intro hres
        refine ⟨0, Nat.succ_pos fuel, h0, ?_, ?_⟩
        · intro j hj
          exact absurd hj (Nat.not_lt_zero j)
        · exact (Option.some.inj hres).symm
      · rintro ⟨k, _, _, hfirst, hres⟩
        cases k with
        | zero => rw [hres]; rfl
        | succ k => exact absurd h0 (hfirst 0 (Nat.succ_pos k))

/-! ## Shapes, thresholds and runs of several generations -/

theorem rectangular_of_shape {world : World} {rows cols : Nat} (h : Shape world rows cols) :
    Rectangular world ∧ (0 < rows → width world = cols) := by
  obtain ⟨hlen, hrows⟩ := h
  cases world with
  | nil =>
    refine ⟨fun r hr => absurd hr (List.not_mem_nil r), ?_⟩
    intro hpos
    rw [← hlen] at hpos
    exact absurd hpos (Nat.lt_irrefl 0)
  | cons r rs =>
    have hw : width (r :: rs) = cols := hrows r (List.mem_cons_self r rs)
    refine ⟨fun x hx => ?_, fun _ => hw⟩
    rw [hw]
    exact hrows x hx

theorem width_run_one_generation {shuffle : Shuffle} (old_world : World) (t : Int)
    (hshuffle : (shuffle (get_jumpable_coordinates old_world t)).Perm
      (get_jumpable_coordinates old_world t)) :
    width (run_one_generation shuffle old_world t) = width old_world := by
  have hshape := shape_run_one_generation old_world t hshuffle
  cases old_world with
  | nil =>
    have hnil : run_one_generation shuffle [] t = [] := List.length_eq_zero.mp hshape.1
    rw [hnil]
  | cons r rs => exact (rectangular_of_shape hshape).2 (Nat.succ_pos _)

theorem flatten_length_of_shape {world : World} {rows cols : Nat} (h : Shape world rows cols) :
    world.flatten.length = (scan_order rows cols).length := by
  rw [← map_cell_at_scan_order h, List.length_map]

theorem count_colours (l : List CellType) :
    List.count CellType.EMPTY l + List.count CellType.RED l + List.count CellType.BLUE l
      = l.length := by
  induction l with
  | nil => rfl
  | cons v l ih =>
    cases v <;> simp [List.count_cons] <;> omega

theorem count_empty_of_shape {w1 w2 : World} {rows cols : Nat} (h1 : Shape w1 rows cols)
    (h2 : Shape w2 rows cols)
    (h : ∀ b, b ≠ CellType.EMPTY → List.count b w1.flatten = List.count b w2.flatten) :
    List.count CellType.EMPTY w1.flatten = List.count CellType.EMPTY w2.flatten := by
  have e1 := count_colours w1.flatten
  have e2 := count_colours w2.flatten
  rw [flatten_length_of_shape h1] at e1
  rw [flatten_length_of_shape h2] at e2
  have hr := h CellType.RED (by decide)
  have hb := h CellType.BLUE (by decide)
  omega

theorem generations_inv {shuffles : Nat → Shuffle} {world : World} (t : Int)
    (hrect : Rectangular world) (hshuffles : ∀ i, IsShuffle (shuffles i)) (k : Nat) :
    Shape (generations shuffles world t k) world.length (width world)
      ∧ Rectangular (generations shuffles world t k)
      ∧ width (generations shuffles world t k) = width world
      ∧ ∀ b, b ≠ CellType.EMPTY →
          List.count b (generations shuffles world t k).flatten = List.count b world.flatten := by
  induction k with
  | zero => exact ⟨shape_of_rectangular hrect, hrect, rfl, fun _ _ => rfl⟩
  | succ k ih =>
    obtain ⟨hshape, hr, hw, hcount⟩ := ih
    have hp := hshuffles k (get_jumpable_coordinates (generations shuffles world t k) t)
    have hnew := shape_run_one_generation (generations shuffles world t k) t hp
    rw [hshape.1, hw] at hnew
    refine ⟨hnew, (rectangular_of_shape hnew).1, ?_, ?_⟩
    · exact (width_run_one_generation _ t hp).trans hw
    · intro b hb
      exact (count_run_one_generation t hr hp hb).trans (hcount b hb)

theorem generations_converged {shuffles : Nat → Shuffle} {world : World} {t : Int}
    (hrect : Rectangular world) (hshuffles : ∀ i, IsShuffle (shuffles i))
    (hconv : get_unhappy_count world t = 0) (k : Nat) :
    generations shuffles world t k = world := by
  induction k with
  | zero => rfl
  | succ k ih =>
    show run_one_generation (shuffles k) (generations shuffles world t k) t = world
    rw [ih]
    exact run_one_generation_converged hrect (hshuffles k _) hconv

theorem ge_int_mono (d : Double) {t1 t2 : Int} (h : t1 ≤ t2) (h2 : d.ge_int t2 = true) :
    d.ge_int t1 = true := by
  cases d with
  | nan => exact h2
  | inf => rfl
  | finite m e =>
    simp only [Double.ge_int, decide_eq_true_eq] at h2 ⊢
    exact (Int.mul_le_mul_of_nonneg_right h (by positivity)).trans h2

theorem is_happy_mono (c : Coordinate) (world : World) {t1 t2 : Int} (h : t1 ≤ t2)
    (h2 : is_happy c world t2 = true) : is_happy c world t1 = true :=
  ge_int_mono _ h h2

theorem is_happy_of_no_neighbour (c : Coordinate) (world : World) (t : Int)
    (hn : (inside_neighbours c world).length = 0) : is_happy c world t = false := by
  have ha := acceptable_neighbours_length_le c world
  rw [hn] at ha
  unfold is_happy
  rw [calculate_happiness_eq, hn, Nat.le_zero.mp ha, percent_zero_zero]
  rfl

theorem is_happy_iff (c : Coordinate) (world : World) (t : Int)
    (hn : 1 ≤ (inside_neighbours c world).length) :
    is_happy c world t = true ↔
      t * ((inside_neighbours c world).length : Int)
        ≤ 100 * ((acceptable_neighbours c world).length : Int) := by
  obtain ⟨_, _, _, _, _, _, h⟩ := happiness_props c world hn
  exact h t

theorem is_happy_of_gt_100 (c : Coordinate) (world : World) {t : Int} (ht : 100 < t) :
    is_happy c world t = false := by
  by_cases hn : 1 ≤ (inside_neighbours c world).length
  · have hiff := is_happy_iff c world t hn
    have ha := acceptable_neighbours_length_le c world
    have hn4 := inside_neighbours_length_le c world
    by_contra hne
    have hle := hiff.mp (by simpa using hne)
    generalize (inside_neighbours c world).length = n at hn hn4 ha hle
    interval_cases n <;> omega
  · exact is_happy_of_no_neighbour c world t (by omega)

theorem is_happy_of_nonpos (c : Coordinate) (world : World) {t : Int} (ht : t ≤ 0)
    (hn : 1 ≤ (inside_neighbours c world).length) : is_happy c world t = true := by
  rw [is_happy_iff c world t hn]
  have hn4 := inside_neighbours_length_le c world
  generalize (inside_neighbours c world).length = n at hn hn4
  interval_cases n <;> omega

theorem inside_neighbours_eq_nil_iff {c : Coordinate} {world : World}
    (hc : is_inside c.1 c.2 world = true) :
    inside_neighbours c world = [] ↔ world.length = 1 ∧ width world = 1 := by
  unfold inside_neighbours von_neumann
  rw [List.filter_eq_nil_iff]
  unfold is_inside at hc ⊢
  unfold width
  simp only [Bool.and_eq_true, decide_eq_true_eq, List.mem_cons, List.mem_singleton,
    List.not_mem_nil, or_false, forall_eq_or_imp, forall_eq] at hc ⊢
  constructor
  · rintro ⟨h1, h2, h3, h4⟩
    omega
  · rintro ⟨h1, h2⟩
    refine ⟨?_, ?_, ?_, ?_⟩ <;> omega

theorem inside_neighbours_pos {c : Coordinate} {world : World}
    (hc : is_inside c.1 c.2 world = true) (hcells : 2 ≤ world.length * width world) :
    1 ≤ (inside_neighbours c world).length := by
  by_contra hlt
  have hnil : inside_neighbours c world = [] := List.length_eq_zero.mp (by omega)
  obtain ⟨h1, h2⟩ := (inside_neighbours_eq_nil_iff hc).mp hnil
  rw [h1, h2] at hcells
  omega

theorem unhappy_count_of_gt_100 {world : World} (hrect : Rectangular world) {t : Int}
    (ht : 100 < t) : get_unhappy_count world t = (occupied_values world).length := by
  rw [get_unhappy_count_eq hrect]
  unfold occupied_values coordinates
  rw [← map_cell_at_scan_order (shape_of_rectangular hrect), ← List.countP_eq_length_filter,
    List.countP_map]
  apply List.countP_congr
  intro c _
  unfold unhappy_test
  simp [is_happy_of_gt_100 c world ht]

theorem perm_pair {α : Type} {a b : α} {l : List α} (h : l.Perm [a, b]) :
    l = [a, b] ∨ l = [b, a] := by
  obtain ⟨x, y, rfl⟩ := List.length_eq_two.mp h.length_eq
  have hx : x ∈ [a, b] := h.subset (List.mem_cons_self x [y])
  simp only [List.mem_cons, List.mem_singleton, List.not_mem_nil, or_false] at hx
  rcases hx with rfl | rfl
  · left
    have h2 : [y].Perm [b] := (List.perm_cons x).mp h
    rw [List.perm_singleton.mp h2]
  · right
    have h2 : [y].Perm [a] := (List.perm_cons x).mp (h.trans (List.Perm.swap x a []))
    rw [List.perm_singleton.mp h2]

theorem foldl_push_map {α β : Type} (g : α → β) (l : List α) (init : List β) :
    l.foldl (fun acc x => acc ++ [g x]) init = init ++ l.map g := by
  induction l generalizing init with
  | nil => simp
  | cons a l ih =>
    rw [List.foldl_cons, ih, List.map_cons, List.append_assoc]
    rfl

theorem generation_step_eq_spec (p : List Coordinate) (old_world : World) (t : Int)
    (state : World × Nat) (c : Coordinate)
    (hc : cell_at old_world c.1 c.2 = CellType.EMPTY → is_happy c old_world t = true) :
    generation_step p old_world t state c = spec_generation_step p old_world t state c := by
  unfold generation_step spec_generation_step
  by_cases he : cell_at old_world c.1 c.2 = CellType.EMPTY
  · have hh := hc he
    simp only [he, hh, ne_eq, not_true_eq_false, false_and, if_false, Bool.true_eq_false]
  · by_cases hh : is_happy c old_world t = false
    · simp only [he, hh, ne_eq, not_false_eq_true, and_self, if_true]
    · have hh2 : is_happy c old_world t = true := by simpa using hh
      simp only [he, hh2, ne_eq, not_false_eq_true, and_false, if_false, if_true,
        Bool.true_eq_false]

/-! ## Claims about the generation stepper -/

/-- C1 (conservation): on a rectangular grid, for every threshold and every shuffle result that
    is a permutation of the jumpable list, the occupied cell values of the result of
    `run_one_generation` are a permutation of those of the input; the numbers of `RED` cells
    and of `BLUE` cells are unchanged. -/
theorem run_one_generation_conserves (shuffle : Shuffle) (old_world : World) (t : Int)
    (hrect : Rectangular old_world)
    (hshuffle : (shuffle (get_jumpable_coordinates old_world t)).Perm
      (get_jumpable_coordinates old_world t)) :
    (occupied_values (run_one_generation shuffle old_world t)).Perm (occupied_values old_world)
      ∧ List.count CellType.RED (run_one_generation shuffle old_world t).flatten
          = List.count CellType.RED old_world.flatten
      ∧ List.count CellType.BLUE (run_one_generation shuffle old_world t).flatten
          = List.count CellType.BLUE old_world.flatten :=
  ⟨occupied_perm_of_counts fun _ hb => count_run_one_generation t hrect hshuffle hb,
    count_run_one_generation t hrect hshuffle (by decide),
    count_run_one_generation t hrect hshuffle (by decide)⟩

theorem run_one_generation_conserves_witness :
    Rectangular sample_world
      ∧ (List.reverse (get_jumpable_coordinates sample_world 50)).Perm
          (get_jumpable_coordinates sample_world 50)
      ∧ ((occupied_values (run_one_generation List.reverse sample_world 50)).Perm
          (occupied_values sample_world)
        ∧ List.count CellType.RED (run_one_generation List.reverse sample_world 50).flatten
            = List.count CellType.RED sample_world.flatten
        ∧ List.count CellType.BLUE (run_one_generation List.reverse sample_world 50).flatten
            = List.count CellType.BLUE sample_world.flatten) :=
  ⟨rectangular_sample_world, List.reverse_perm _,
    run_one_generation_conserves List.reverse sample_world 50 rectangular_sample_world
      (List.reverse_perm _)⟩

/-- C2 (happy cells are stable): for every threshold and every shuffle result that is a
    permutation of the jumpable list, a coordinate inside the grid whose cell is occupied and
    happy in the input holds the same value in the result of `run_one_generation`. -/
theorem happy_cell_stays (shuffle : Shuffle) (old_world : World) (t : Int) (i j : Int)
    (hshuffle : (shuffle (get_jumpable_coordinates old_world t)).Perm
      (get_jumpable_coordinates old_world t))
    (hinside : is_inside i j old_world = true)
    (hocc : cell_at old_world i j ≠ CellType.EMPTY)
    (hhappy : is_happy (i, j) old_world t = true) :
    cell_at (run_one_generation shuffle old_world t) i j = cell_at old_world i j := by
  rw [run_one_generation_eq]
  exact (scan_inv_final hshuffle).stayed (i, j) (is_inside_iff.mp hinside) hhappy hocc

theorem happy_cell_stays_witness :
    (List.reverse (get_jumpable_coordinates sample_world 50)).Perm
        (get_jumpable_coordinates sample_world 50)
      ∧ is_inside 0 0 sample_world = true
      ∧ cell_at sample_world 0 0 ≠ CellType.EMPTY ∧ is_happy (0, 0) sample_world 50 = true
      ∧ cell_at (run_one_generation List.reverse sample_world 50) 0 0
          = cell_at sample_world 0 0 :=
  ⟨List.reverse_perm _, by decide, by decide, by decide,
    happy_cell_stays List.reverse sample_world 50 0 0 (List.reverse_perm _) (by decide)
      (by decide) (by decide)⟩

/-- C3 (converged grids are fixed points): on a rectangular grid with
    `get_unhappy_count = 0`, for every shuffle result that is a permutation of the jumpable
    list, `run_one_generation` returns the input grid itself, whose unhappy count is again 0.
    `EMPTY` cells that are not happy are allowed: they move the value `EMPTY` onto cells that
    are `EMPTY`. -/
theorem converged_is_fixed_point (shuffle : Shuffle) (old_world : World) (t : Int)
    (hrect : Rectangular old_world)
    (hshuffle : (shuffle (get_jumpable_coordinates old_world t)).Perm
      (get_jumpable_coordinates old_world t))
    (hconv : get_unhappy_count old_world t = 0) :
    run_one_generation shuffle old_world t = old_world
      ∧ get_unhappy_count (run_one_generation shuffle old_world t) t = 0 := by
  have h := run_one_generation_converged hrect hshuffle hconv
  exact ⟨h, by rw [h]; exact hconv⟩

theorem converged_is_fixed_point_witness :
    Rectangular converged_world
      ∧ (List.reverse (get_jumpable_coordinates converged_world 50)).Perm
          (get_jumpable_coordinates converged_world 50)
      ∧ get_unhappy_count converged_world 50 = 0
      ∧ is_happy (0, 1) converged_world 50 = false
      ∧ (run_one_generation List.reverse converged_world 50 = converged_world
        ∧ get_unhappy_count (run_one_generation List.reverse converged_world 50) 50 = 0) :=
  ⟨rectangular_converged_world, List.reverse_perm _, by decide, by decide,
    converged_is_fixed_point List.reverse converged_world 50 rectangular_converged_world
      (List.reverse_perm _) (by decide)⟩

/-- C4 (every mover gets its own slot): let `p` be the shuffled jumpable list, a permutation of
    the jumpable list. Each time the scan of `run_one_generation` reaches a cell `c` that is
    not happy, after the cells `visited` before it, the cursor `index` is below the length of
    `p`; the slot `p[index]` read there differs from the slot read at every other cell that is
    not happy; and it is not the coordinate of a happy occupied cell. -/
theorem mover_slots (shuffle : Shuffle) (old_world : World) (t : Int)
    (visited rest : List Coordinate) (c : Coordinate)
    (hshuffle : (shuffle (get_jumpable_coordinates old_world t)).Perm
      (get_jumpable_coordinates old_world t))
    (hsplit : visited ++ c :: rest = coordinates old_world)
    (hc : is_happy c old_world t = false) :
    (scan_state (shuffle (get_jumpable_coordinates old_world t)) old_world t visited).2
        < (shuffle (get_jumpable_coordinates old_world t)).length
      ∧ (∀ (visited2 rest2 : List Coordinate) (c2 : Coordinate),
          visited2 ++ c2 :: rest2 = coordinates old_world →
          is_happy c2 old_world t = false → c2 ≠ c →
          (shuffle (get_jumpable_coordinates old_world t)).getD
              (scan_state (shuffle (get_jumpable_coordinates old_world t)) old_world t
                visited2).2 (0, 0)
            ≠ (shuffle (get_jumpable_coordinates old_world t)).getD
              (scan_state (shuffle (get_jumpable_coordinates old_world t)) old_world t
                visited).2 (0, 0))
      ∧ (∀ x y : Int, is_inside x y old_world = true →
          cell_at old_world x y ≠ CellType.EMPTY → is_happy (x, y) old_world t = true →
          (shuffle (get_jumpable_coordinates old_world t)).getD
              (scan_state (shuffle (get_jumpable_coordinates old_world t)) old_world t
                visited).2 (0, 0) ≠ (x, y)) := by
  have hp := hshuffle
  have hpnodup := hp.nodup_iff.mpr (nodup_jumpable old_world t)
  have inv := scan_inv hp visited (c :: rest) hsplit
  have hidx := index_lt_of_split hp hsplit hc
  rw [← inv.index_eq] at hidx
  refine ⟨hidx, ?_, ?_⟩
  · intro visited2 rest2 c2 hsplit2 hc2 hne
    have inv2 := scan_inv hp visited2 (c2 :: rest2) hsplit2
    have hidx2 := index_lt_of_split hp hsplit2 hc2
    rw [← inv2.index_eq] at hidx2
    have hdiff := movers_length_ne_of_splits (hsplit2.trans hsplit.symm) hc2 hc hne
    rw [← inv.index_eq, ← inv2.index_eq] at hdiff
    rcases Nat.lt_or_gt_of_ne hdiff with hlt | hgt
    · exact getD_ne_of_nodup hpnodup _ hlt hidx
    · exact (getD_ne_of_nodup hpnodup _ hgt hidx2).symm
  · intro x y _ hocc hhappy heq
    have hmem := getD_mem_of_lt (shuffle (get_jumpable_coordinates old_world t)) (0, 0) hidx
    rw [heq] at hmem
    rcases (mem_jumpable_iff.mp (hp.mem_iff.mp hmem)).2 with h | h
    · rw [h] at hhappy; exact Bool.false_ne_true hhappy
    · exact hocc h

theorem mover_slots_witness :
    (List.reverse (get_jumpable_coordinates sample_world 50)).Perm
        (get_jumpable_coordinates sample_world 50)
      ∧ [((0 : Int), (0 : Int))] ++ (0, 1) :: [(0, 2), (1, 0), (1, 1), (1, 2)]
          = coordinates sample_world
      ∧ is_happy (0, 1) sample_world 50 = false
      ∧ (scan_state (List.reverse (get_jumpable_coordinates sample_world 50)) sample_world 50
            [(0, 0)]).2 < (List.reverse (get_jumpable_coordinates sample_world 50)).length
      ∧ (List.reverse (get_jumpable_coordinates sample_world 50)).getD
            (scan_state (List.reverse (get_jumpable_coordinates sample_world 50)) sample_world 50
              [(0, 0), (0, 1), (0, 2)]).2 (0, 0)
          ≠ (List.reverse (get_jumpable_coordinates sample_world 50)).getD
            (scan_state (List.reverse (get_jumpable_coordinates sample_world 50)) sample_world 50
              [(0, 0)]).2 (0, 0)
      ∧ (List.reverse (get_jumpable_coordinates sample_world 50)).getD
            (scan_state (List.reverse (get_jumpable_coordinates sample_world 50)) sample_world 50
              [(0, 0)]).2 (0, 0) ≠ (0, 0) :=
  have h := mover_slots List.reverse sample_world 50 [(0, 0)] [(0, 2), (1, 0), (1, 1), (1, 2)]
    (0, 1) (List.reverse_perm _) (by decide) (by decide)
  ⟨List.reverse_perm _, by decide, by decide, h.1,
    h.2.1 [(0, 0), (0, 1), (0, 2)] [(1, 1), (1, 2)] (1, 0) (by decide) (by decide) (by decide),
    h.2.2 0 0 (by decide) (by decide) (by decide)⟩

/-! ## Claims about the simulation driver -/

/-- C5 (convergence mode): `run_simulation` with `simulation_count = 0` returns a grid exactly
    when some grid of the sequence of successive generations has unhappy count 0 and the loop
    is given enough iterations to reach the first such grid; the grid returned is that first
    grid, so its unhappy count is 0. When the input already has unhappy count 0 it is returned
    as it is, without a generation step. -/
theorem convergence_mode_returns_first_converged (fuel : Nat) (shuffles : Nat → Shuffle)
    (old_world : World) (t : Int) :
    (∀ result, run_simulation fuel shuffles old_world 0 t = some result ↔
        ∃ k, k < fuel ∧ get_unhappy_count (generations shuffles old_world t k) t = 0
          ∧ (∀ j, j < k → get_unhappy_count (generations shuffles old_world t j) t ≠ 0)
          ∧ result = generations shuffles old_world t k)
      ∧ (∀ result, run_simulation fuel shuffles old_world 0 t = some result →
          get_unhappy_count result t = 0)
      ∧ (get_unhappy_count old_world t = 0 →
          run_simulation (fuel + 1) shuffles old_world 0 t = some old_world) := by
  have hrun : ∀ f, run_simulation f shuffles old_world 0 t
      = infinite_loop t f shuffles old_world := fun _ => rfl
  refine ⟨?_, ?_, ?_⟩
  · intro result
    rw [hrun]
    exact infinite_loop_eq_some_iff t fuel shuffles old_world result
  · intro result hres
    rw [hrun] at hres
    obtain ⟨k, _, hconv, _, rfl⟩ :=
      (infinite_loop_eq_some_iff t fuel shuffles old_world result).mp hres
    exact hconv
  · intro hconv
    rw [hrun]
    exact (infinite_loop_eq_some_iff t (fuel + 1) shuffles old_world old_world).mpr
      ⟨0, Nat.succ_pos fuel, hconv, fun j hj => absurd hj (Nat.not_lt_zero j), rfl⟩

/-- C6 (fixed-count mode): for every grid, threshold and `k > 0`, `run_simulation` with
    `simulation_count = k` returns the grid after exactly `k` successive applications of
    `run_one_generation`, whatever the unhappy counts along the way. -/
theorem fixed_count_mode (fuel : Nat) (shuffles : Nat → Shuffle) (old_world : World) (k : Int)
    (t : Int) (hk : 0 < k) :
    run_simulation fuel shuffles old_world k t
      = some (generations shuffles old_world t k.toNat) := by
  unfold run_simulation INFINITE_SIMULATION
  rw [if_neg (by omega), run_finite_simulation_eq]

theorem fixed_count_mode_witness :
    (0 : Int) < 2
      ∧ run_simulation 0 (fun _ => List.reverse) sample_world 2 50
          = some (generations (fun _ => List.reverse) sample_world 50 (2 : Int).toNat) :=
  ⟨by decide, fixed_count_mode 0 (fun _ => List.reverse) sample_world 2 50 (by decide)⟩

/-! ## Claims about the happiness evaluator and the mobility classification -/

/-- C7 as stated fails: at `(0, 1)` of the sample grid three neighbours are inside and one is
    acceptable, and the binary64 value returned by `calculate_happiness` is not the exact
    ratio `100 * 1 / 3`. -/
theorem happiness_not_exact_ratio :
    Rectangular sample_world ∧ is_inside 0 1 sample_world = true
      ∧ (inside_neighbours (0, 1) sample_world).length = 3
      ∧ (acceptable_neighbours (0, 1) sample_world).length = 1
      ∧ (calculate_happiness (0, 1) sample_world).toRat
          ≠ some (100 * ((acceptable_neighbours (0, 1) sample_world).length : ℚ)
              / ((inside_neighbours (0, 1) sample_world).length : ℚ)) := by
  have hv : calculate_happiness (0, 1) sample_world = Double.finite 4691249611844266 (-47) := by
    decide
  have hn : (inside_neighbours (0, 1) sample_world).length = 3 := by decide
  have ha : (acceptable_neighbours (0, 1) sample_world).length = 1 := by decide
  refine ⟨rectangular_sample_world, by decide, hn, ha, ?_⟩
  rw [hv, hn, ha]
  unfold Double.toRat
  norm_num

/-- C7 (happiness formula, amended): on a non-empty rectangular grid, at a coordinate `(r,c)`
    inside the grid with at least one neighbour inside the grid, let `n` be the number of the
    four positions `(r-1,c)`, `(r+1,c)`, `(r,c-1)`, `(r,c+1)` inside the grid and `a` the
    number of those whose cell is `EMPTY` or equal to the cell at `(r,c)`. The counters of
    `calculate_happiness` end at `(n, a)`, and its result is a finite binary64 value `v`
    within `2^-46` of `100 * a / n`, equal to `100 * a / n` unless `n = 3` and `a` is 1 or 2,
    and such that `v ≥ t` holds for an integer `t` exactly when `t * n ≤ 100 * a`. -/
theorem calculate_happiness_formula (c : Coordinate) (world : World)
    (hne : world ≠ []) (hrect : Rectangular world)
    (hinside : is_inside c.1 c.2 world = true)
    (hn : 1 ≤ (inside_neighbours c world).length) :
    neighbour_counts c world
        = ((inside_neighbours c world).length, (acceptable_neighbours c world).length)
      ∧ ∃ v : ℚ, (calculate_happiness c world).toRat = some v
        ∧ |v - 100 * ((acceptable_neighbours c world).length : ℚ)
              / ((inside_neighbours c world).length : ℚ)| ≤ 1 / 2 ^ 46
        ∧ (((inside_neighbours c world).length ≠ 3 ∨ (acceptable_neighbours c world).length = 0
              ∨ (acceptable_neighbours c world).length = 3) →
            v = 100 * ((acceptable_neighbours c world).length : ℚ)
              / ((inside_neighbours c world).length : ℚ))
        ∧ (∀ t : Int, is_happy c world t = true ↔
            t * ((inside_neighbours c world).length : Int)
              ≤ 100 * ((acceptable_neighbours c world).length : Int)) := by
  have _hshape : Shape world world.length (width world) := shape_of_rectangular hrect
  have _hrows : 0 < world.length := List.length_pos.mpr hne
  have _hc : c ∈ coordinates world := is_inside_iff.mp hinside
  obtain ⟨v, h1, _, _, h4, h5, h6⟩ := happiness_props c world hn
  exact ⟨neighbour_counts_eq c world, v, h1, h4, h5, h6⟩

theorem calculate_happiness_formula_witness :
    sample_world ≠ [] ∧ Rectangular sample_world ∧ is_inside 0 1 sample_world = true
      ∧ 1 ≤ (inside_neighbours (0, 1) sample_world).length
      ∧ neighbour_counts (0, 1) sample_world
        = ((inside_neighbours (0, 1) sample_world).length,
            (acceptable_neighbours (0, 1) sample_world).length)
      ∧ ∃ v : ℚ, (calculate_happiness (0, 1) sample_world).toRat = some v
        ∧ |v - 100 * ((acceptable_neighbours (0, 1) sample_world).length : ℚ)
              / ((inside_neighbours (0, 1) sample_world).length : ℚ)| ≤ 1 / 2 ^ 46
        ∧ (((inside_neighbours (0, 1) sample_world).length ≠ 3
              ∨ (acceptable_neighbours (0, 1) sample_world).length = 0
              ∨ (acceptable_neighbours (0, 1) sample_world).length = 3) →
            v = 100 * ((acceptable_neighbours (0, 1) sample_world).length : ℚ)
              / ((inside_neighbours (0, 1) sample_world).length : ℚ))
        ∧ (∀ t : Int, is_happy (0, 1) sample_world t = true ↔
            t * ((inside_neighbours (0, 1) sample_world).length : Int)
              ≤ 100 * ((acceptable_neighbours (0, 1) sample_world).length : Int)) :=
  ⟨by decide, rectangular_sample_world, by decide, by decide,
    calculate_happiness_formula (0, 1) sample_world (by decide) rectangular_sample_world
      (by decide) (by decide)⟩

/-- C8 (happiness bounds): at every coordinate with at least one neighbour inside the grid,
    `calculate_happiness` returns a finite value in the closed interval from 0 to 100. -/
theorem happiness_bounds (c : Coordinate) (world : World)
    (hn : 1 ≤ (inside_neighbours c world).length) :
    ∃ v : ℚ, (calculate_happiness c world).toRat = some v ∧ 0 ≤ v ∧ v ≤ 100 := by
  obtain ⟨v, h1, h2, h3, _⟩ := happiness_props c world hn
  exact ⟨v, h1, h2, h3⟩

theorem happiness_bounds_witness :
    1 ≤ (inside_neighbours (0, 1) sample_world).length
      ∧ ∃ v : ℚ, (calculate_happiness (0, 1) sample_world).toRat = some v ∧ 0 ≤ v ∧ v ≤ 100 :=
  ⟨by decide, happiness_bounds (0, 1) sample_world (by decide)⟩

/-- C9 (jumpable set): `get_jumpable_coordinates` returns a duplicate-free list, strictly
    increasing in row-major order, whose members are exactly the coordinates inside the grid
    whose cell is `EMPTY` or is occupied and not happy; every `EMPTY` cell inside the grid is
    a member and no happy occupied cell is. -/
theorem jumpable_coordinates_spec (world : World) (t : Int) :
    (get_jumpable_coordinates world t).Nodup
      ∧ (get_jumpable_coordinates world t).Pairwise row_major_lt
      ∧ (∀ x y : Int, (x, y) ∈ get_jumpable_coordinates world t ↔
          is_inside x y world = true
            ∧ (cell_at world x y = CellType.EMPTY
              ∨ (cell_at world x y ≠ CellType.EMPTY ∧ is_happy (x, y) world t = false)))
      ∧ (∀ x y : Int, is_inside x y world = true → cell_at world x y = CellType.EMPTY →
          (x, y) ∈ get_jumpable_coordinates world t)
      ∧ (∀ x y : Int, cell_at world x y ≠ CellType.EMPTY → is_happy (x, y) world t = true →
          (x, y) ∉ get_jumpable_coordinates world t) := by
  refine ⟨nodup_jumpable world t, ?_, ?_, ?_, ?_⟩
  · rw [get_jumpable_coordinates_eq]
    exact (pairwise_scan_order _ _).filter _
  · intro x y
    rw [mem_jumpable_iff, is_inside_iff]
    constructor
    · rintro ⟨h1, h2 | h2⟩
      · by_cases he : cell_at world x y = CellType.EMPTY
        · exact ⟨h1, Or.inl he⟩
        · exact ⟨h1, Or.inr ⟨he, h2⟩⟩
      · exact ⟨h1, Or.inl h2⟩
    · rintro ⟨h1, h2 | ⟨_, h2⟩⟩
      · exact ⟨h1, Or.inr h2⟩
      · exact ⟨h1, Or.inl h2⟩
  · intro x y h1 h2
    exact mem_jumpable_iff.mpr ⟨is_inside_iff.mp h1, Or.inr h2⟩
  · intro x y h1 h2 hmem
    rcases (mem_jumpable_iff.mp hmem).2 with h | h
    · rw [h] at h2; exact Bool.false_ne_true h2
    · exact h1 h

/-- C10 (unhappy count): on a rectangular grid `get_unhappy_count` is the number of coordinates
    inside the grid whose cell is occupied and not happy, where `coordinates` lists each
    coordinate inside the grid once; it is at most the number of occupied cells, and it is 0
    when every cell is `EMPTY`. -/
theorem unhappy_count_spec (world : World) (t : Int) (hrect : Rectangular world) :
    (coordinates world).Nodup
      ∧ (∀ x y : Int, (x, y) ∈ coordinates world ↔ is_inside x y world = true)
      ∧ get_unhappy_count world t
          = ((coordinates world).filter fun c =>
              decide (cell_at world c.1 c.2 ≠ CellType.EMPTY ∧ is_happy c world t = false)).length
      ∧ get_unhappy_count world t ≤ (occupied_values world).length
      ∧ ((∀ r ∈ world, ∀ v ∈ r, v = CellType.EMPTY) → get_unhappy_count world t = 0) := by
  refine ⟨nodup_scan_order _ _, fun x y => is_inside_iff.symm, ?_,
    unhappy_count_le_occupied hrect t, ?_⟩
  · rw [get_unhappy_count_eq hrect, List.countP_eq_length_filter]
    rfl
  · intro hall
    rw [get_unhappy_count_eq hrect, List.countP_eq_zero]
    intro c _
    unfold unhappy_test
    simp only [decide_eq_true_eq, not_and]
    intro hocc
    rcases cell_at_empty_or_mem world c.1 c.2 with h | ⟨r, hr, hv⟩
    · exact absurd h hocc
    · exact absurd (hall r hr _ hv) hocc

theorem unhappy_count_spec_witness :
    Rectangular sample_world
      ∧ ((coordinates sample_world).Nodup
        ∧ (∀ x y : Int, (x, y) ∈ coordinates sample_world ↔ is_inside x y sample_world = true)
        ∧ get_unhappy_count sample_world 50
            = ((coordinates sample_world).filter fun c =>
                decide (cell_at sample_world c.1 c.2 ≠ CellType.EMPTY
                  ∧ is_happy c sample_world 50 = false)).length
        ∧ get_unhappy_count sample_world 50 ≤ (occupied_values sample_world).length
        ∧ ((∀ r ∈ sample_world, ∀ v ∈ r, v = CellType.EMPTY) →
            get_unhappy_count sample_world 50 = 0)) :=
  ⟨rectangular_sample_world, unhappy_count_spec sample_world 50 rectangular_sample_world⟩

/-! ## Claims about the scan, the thresholds and the runs -/

/-- C11 as stated fails: on the grid `ERB` at threshold 100, with the jumpable list left in its
    order, `run_one_generation` returns `ERB` while the scan worded in the specification
    returns `RBE`: the `EMPTY` cell at `(0, 0)` is not happy and takes the slot `p[0]`. -/
theorem scan_differs_from_spec_scan :
    Rectangular erb_world ∧ erb_world ≠ []
      ∧ (id (get_jumpable_coordinates erb_world 100)).Perm
          (get_jumpable_coordinates erb_world 100)
      ∧ run_one_generation id erb_world 100
          = [[CellType.EMPTY, CellType.RED, CellType.BLUE]]
      ∧ spec_run_one_generation id erb_world 100
          = [[CellType.RED, CellType.BLUE, CellType.EMPTY]]
      ∧ run_one_generation id erb_world 100 ≠ spec_run_one_generation id erb_world 100 := by
  refine ⟨by decide, by decide, ?_, by decide, by decide, by decide⟩
  rw [id_eq]

/-- C11 (stepper scan, amended): for every shuffle result `p` that is a permutation of the
    jumpable list, the result of `run_one_generation` has the dimensions of the input; the
    cells that are not happy, `EMPTY` cells included, are at most as many as the slots, and
    the `k`-th of them in row-major order has its value at `p[k]`; a happy occupied cell keeps
    its value at its own coordinate; every other cell inside the grid is `EMPTY`. When no
    `EMPTY` cell inside the grid is unhappy, the result is that of the scan worded in the
    specification. -/
theorem run_one_generation_scan (shuffle : Shuffle) (old_world : World) (t : Int)
    (hshuffle : (shuffle (get_jumpable_coordinates old_world t)).Perm
      (get_jumpable_coordinates old_world t)) :
    Shape (run_one_generation shuffle old_world t) old_world.length (width old_world)
      ∧ (movers old_world t (coordinates old_world)).length
          ≤ (shuffle (get_jumpable_coordinates old_world t)).length
      ∧ (∀ k, k < (movers old_world t (coordinates old_world)).length →
          cell_at (run_one_generation shuffle old_world t)
              ((shuffle (get_jumpable_coordinates old_world t)).getD k (0, 0)).1
              ((shuffle (get_jumpable_coordinates old_world t)).getD k (0, 0)).2
            = cell_at old_world ((movers old_world t (coordinates old_world)).getD k (0, 0)).1
                ((movers old_world t (coordinates old_world)).getD k (0, 0)).2)
      ∧ (∀ x y : Int, is_inside x y old_world = true →
          cell_at old_world x y ≠ CellType.EMPTY → is_happy (x, y) old_world t = true →
          cell_at (run_one_generation shuffle old_world t) x y = cell_at old_world x y)
      ∧ (∀ x y : Int, is_inside x y old_world = true →
          (∀ k, k < (movers old_world t (coordinates old_world)).length →
            (shuffle (get_jumpable_coordinates old_world t)).getD k (0, 0) ≠ (x, y)) →
          ¬ (is_happy (x, y) old_world t = true ∧ cell_at old_world x y ≠ CellType.EMPTY) →
          cell_at (run_one_generation shuffle old_world t) x y = CellType.EMPTY)
      ∧ ((∀ x y : Int, is_inside x y old_world = true →
            cell_at old_world x y = CellType.EMPTY → is_happy (x, y) old_world t = true) →
          run_one_generation shuffle old_world t
            = spec_run_one_generation shuffle old_world t) := by
  have inv := scan_inv_final hshuffle
  have hlen := movers_length_le_jumpable old_world t
  rw [← hshuffle.length_eq] at hlen
  rw [run_one_generation_eq]
  refine ⟨inv.shape, hlen, ?_, ?_, ?_, ?_⟩
  · intro k hk
    exact inv.moved k (by rw [inv.index_eq]; exact hk)
  · intro x y hin hocc hhappy
    exact inv.stayed (x, y) (is_inside_iff.mp hin) hhappy hocc
  · intro x y hin hk hnot
    apply inv.others (x, y) (is_inside_iff.mp hin)
    · intro k hk2
      exact hk k (by rw [← inv.index_eq]; exact hk2)
    · rintro ⟨_, h2, h3⟩
      exact hnot ⟨h2, h3⟩
  · intro hempty
    unfold scan_state spec_run_one_generation
    rw [empty_world_eq]
    congr 1
    apply List.foldl_ext
    intro state c hc
    exact generation_step_eq_spec _ old_world t state c
      (hempty c.1 c.2 (is_inside_iff.mpr hc))

theorem run_one_generation_scan_witness :
    (id (get_jumpable_coordinates erb_world 100)).Perm (get_jumpable_coordinates erb_world 100)
      ∧ Shape (run_one_generation id erb_world 100) erb_world.length (width erb_world)
      ∧ (movers erb_world 100 (coordinates erb_world)).length
          ≤ (id (get_jumpable_coordinates erb_world 100)).length
      ∧ cell_at (run_one_generation id erb_world 100)
            ((id (get_jumpable_coordinates erb_world 100)).getD 1 (0, 0)).1
            ((id (get_jumpable_coordinates erb_world 100)).getD 1 (0, 0)).2
          = cell_at erb_world ((movers erb_world 100 (coordinates erb_world)).getD 1 (0, 0)).1
              ((movers erb_world 100 (coordinates erb_world)).getD 1 (0, 0)).2 := by
  have hp : (id (get_jumpable_coordinates erb_world 100)).Perm
      (get_jumpable_coordinates erb_world 100) := by
    rw [id_eq]
  have h := run_one_generation_scan id erb_world 100 hp
  exact ⟨hp, h.1, h.2.1, h.2.2.1 1 (by decide)⟩

/-- C12 (convergence mode may not terminate): on a rectangular grid with an occupied cell, for
    every threshold above 100 and every sequence of shuffles returning permutations, after any
    number of generations `get_unhappy_count` is the number of occupied cells, which is that
    of the input and not 0; so `run_simulation` with `simulation_count = 0` returns nothing,
    however many iterations the loop is allowed. -/
theorem convergence_mode_never_returns (fuel : Nat) (shuffles : Nat → Shuffle)
    (world : World) (t : Int) (k : Nat) (hrect : Rectangular world)
    (hshuffles : ∀ i, IsShuffle (shuffles i)) (ht : 100 < t)
    (hocc : occupied_values world ≠ []) :
    get_unhappy_count (generations shuffles world t k) t
        = (occupied_values (generations shuffles world t k)).length
      ∧ get_unhappy_count (generations shuffles world t k) t = (occupied_values world).length
      ∧ get_unhappy_count (generations shuffles world t k) t ≠ 0
      ∧ run_simulation fuel shuffles world 0 t = none := by
  have hcount : ∀ j, get_unhappy_count (generations shuffles world t j) t
      = (occupied_values world).length := by
    intro j
    obtain ⟨_, hr, _, hc⟩ := generations_inv t hrect hshuffles j
    rw [unhappy_count_of_gt_100 hr ht]
    exact (occupied_perm_of_counts hc).length_eq
  have hpos : (occupied_values world).length ≠ 0 := fun h => hocc (List.length_eq_zero.mp h)
  refine ⟨?_, hcount k, ?_, ?_⟩
  · exact unhappy_count_of_gt_100 (generations_inv t hrect hshuffles k).2.1 ht
  · rw [hcount k]; exact hpos
  · rcases hres : run_simulation fuel shuffles world 0 t with _ | result
    · rfl
    · exfalso
      have hloop : infinite_loop t fuel shuffles world = some result := hres
      obtain ⟨j, _, hconv, _⟩ := (infinite_loop_eq_some_iff t fuel shuffles world result).mp hloop
      rw [hcount j] at hconv
      exact hpos hconv

theorem convergence_mode_never_returns_witness :
    Rectangular sample_world ∧ (∀ i : Nat, IsShuffle ((fun _ => List.reverse) i))
      ∧ (100 : Int) < 101 ∧ occupied_values sample_world ≠ []
      ∧ (get_unhappy_count (generations (fun _ => List.reverse) sample_world 101 3) 101
          = (occupied_values (generations (fun _ => List.reverse) sample_world 101 3)).length
        ∧ get_unhappy_count (generations (fun _ => List.reverse) sample_world 101 3) 101
          = (occupied_values sample_world).length
        ∧ get_unhappy_count (generations (fun _ => List.reverse) sample_world 101 3) 101 ≠ 0
        ∧ run_simulation 5 (fun _ => List.reverse) sample_world 0 101 = none) :=
  ⟨rectangular_sample_world, fun _ => List.reverse_perm, by decide, by decide,
    convergence_mode_never_returns 5 (fun _ => List.reverse) sample_world 101 3
      rectangular_sample_world (fun _ => List.reverse_perm) (by decide) (by decide)⟩

/-- C13 (threshold 0 leaves the grid unchanged): on a rectangular grid with at least two cells,
    for every threshold at most 0 and every shuffle result that is a permutation of the
    jumpable list, every cell inside the grid is happy, `get_unhappy_count` is 0 and
    `run_one_generation` returns the input grid. -/
theorem nonpositive_threshold_fixes_grid (shuffle : Shuffle) (world : World) (t : Int)
    (hrect : Rectangular world) (hcells : 2 ≤ world.length * width world) (ht : t ≤ 0)
    (hshuffle : (shuffle (get_jumpable_coordinates world t)).Perm
      (get_jumpable_coordinates world t)) :
    (∀ x y : Int, is_inside x y world = true → is_happy (x, y) world t = true)
      ∧ get_unhappy_count world t = 0
      ∧ run_one_generation shuffle world t = world := by
  have hhappy : ∀ x y : Int, is_inside x y world = true → is_happy (x, y) world t = true :=
    fun x y hin => is_happy_of_nonpos (x, y) world ht (inside_neighbours_pos hin hcells)
  have hconv : get_unhappy_count world t = 0 := by
    rw [get_unhappy_count_eq hrect, List.countP_eq_zero]
    intro c hc
    unfold unhappy_test
    simp only [decide_eq_true_eq, not_and, Bool.not_eq_false]
    intro _
    exact hhappy c.1 c.2 (is_inside_iff.mpr hc)
  exact ⟨hhappy, hconv, run_one_generation_converged hrect hshuffle hconv⟩

theorem nonpositive_threshold_fixes_grid_witness :
    Rectangular centre_blue_world ∧ 2 ≤ centre_blue_world.length * width centre_blue_world
      ∧ (0 : Int) ≤ 0
      ∧ (List.reverse (get_jumpable_coordinates centre_blue_world 0)).Perm
          (get_jumpable_coordinates centre_blue_world 0)
      ∧ ((∀ x y : Int, is_inside x y centre_blue_world = true →
            is_happy (x, y) centre_blue_world 0 = true)
        ∧ get_unhappy_count centre_blue_world 0 = 0
        ∧ run_one_generation List.reverse centre_blue_world 0 = centre_blue_world) :=
  ⟨by decide, by decide, by decide, List.reverse_perm _,
    nonpositive_threshold_fixes_grid List.reverse centre_blue_world 0 (by decide) (by decide)
      (by decide) (List.reverse_perm _)⟩

/-- C14 (scenario `RB` at threshold 100): `calculate_happiness` is 0 at both cells,
    `get_unhappy_count` is 2, the jumpable list is `[(0,0), (0,1)]`, and for every shuffle
    result that is a permutation of that list `run_one_generation` returns `RB` or `BR`, with
    occupied values a permutation of `RED`, `BLUE`; the list in its order gives `RB` and the
    reversed list gives `BR`. -/
theorem scenario_rb :
    (calculate_happiness (0, 0) rb_world).toRat = some 0
      ∧ (calculate_happiness (0, 1) rb_world).toRat = some 0
      ∧ get_unhappy_count rb_world 100 = 2
      ∧ get_jumpable_coordinates rb_world 100 = [(0, 0), (0, 1)]
      ∧ (∀ shuffle : Shuffle,
          (shuffle (get_jumpable_coordinates rb_world 100)).Perm
            (get_jumpable_coordinates rb_world 100) →
          (run_one_generation shuffle rb_world 100 = [[CellType.RED, CellType.BLUE]]
            ∨ run_one_generation shuffle rb_world 100 = [[CellType.BLUE, CellType.RED]])
          ∧ (occupied_values (run_one_generation shuffle rb_world 100)).Perm
              [CellType.RED, CellType.BLUE])
      ∧ run_one_generation id rb_world 100 = [[CellType.RED, CellType.BLUE]]
      ∧ run_one_generation List.reverse rb_world 100 = [[CellType.BLUE, CellType.RED]] := by
  have h00 : calculate_happiness (0, 0) rb_world = Double.finite 0 0 := by decide
  have h01 : calculate_happiness (0, 1) rb_world = Double.finite 0 0 := by decide
  have hJ : get_jumpable_coordinates rb_world 100 = [(0, 0), (0, 1)] := by decide
  refine ⟨?_, ?_, by decide, hJ, ?_, by decide, by decide⟩
  · rw [h00]
    simp [Double.toRat]
  · rw [h01]
    simp [Double.toRat]
  · intro shuffle hperm
    have hcases : run_one_generation shuffle rb_world 100 = [[CellType.RED, CellType.BLUE]]
        ∨ run_one_generation shuffle rb_world 100 = [[CellType.BLUE, CellType.RED]] := by
      show (generation_scan (shuffle (get_jumpable_coordinates rb_world 100)) rb_world 100).1 = _
        ∨ (generation_scan (shuffle (get_jumpable_coordinates rb_world 100)) rb_world 100).1 = _
      rw [hJ] at hperm ⊢
      rcases perm_pair hperm with e | e
      · left
        rw [e]
        decide
      · right
        rw [e]
        decide
    refine ⟨hcases, ?_⟩
    rcases hcases with e | e
    · rw [e]
      decide
    · rw [e]
      exact List.Perm.swap _ _ _

/-- C15 (loader mapping): the grid built by `get_world_from_file` from the lines of the file has
    one row per line in the same order and one cell per character in the same order, each
    character mapped by `get_cell_type_from_char`, which sends `R` to `RED`, `B` to `BLUE`
    and every other character to `EMPTY`; `get_cell_type_from_char` undoes
    `get_char_from_cell_type`; the lines `RE`, `BE` give `[[RED, EMPTY], [BLUE, EMPTY]]`. -/
theorem loader_mapping (lines : List (List Char)) :
    get_world_from_file lines = lines.map (fun line => line.map get_cell_type_from_char)
      ∧ (get_world_from_file lines).length = lines.length
      ∧ get_cell_type_from_char 'R' = CellType.RED
      ∧ get_cell_type_from_char 'B' = CellType.BLUE
      ∧ (∀ ch : Char, ch ≠ 'R' → ch ≠ 'B' → get_cell_type_from_char ch = CellType.EMPTY)
      ∧ (∀ cell : CellType, get_cell_type_from_char (get_char_from_cell_type cell) = cell)
      ∧ get_world_from_file ["RE".toList, "BE".toList]
          = [[CellType.RED, CellType.EMPTY], [CellType.BLUE, CellType.EMPTY]] := by
  have hrow : ∀ line : List Char,
      (List.range line.length).foldl (fun row (i : Nat) =>
        row ++ [get_cell_type_from_char (line.getD i EMPTY_REPRESENTATION)]) []
        = line.map get_cell_type_from_char := by
    intro line
    rw [foldl_push_map (fun i => get_cell_type_from_char (line.getD i EMPTY_REPRESENTATION)),
      List.nil_append]
    apply List.ext_getElem
    · simp
    · intro i h1 h2
      have hi : i < line.length := by simpa using h1
      simp only [List.getElem_map, List.getElem_range]
      rw [List.getD_eq_getElem _ _ hi]
  have hmap : get_world_from_file lines
      = lines.map (fun line => line.map get_cell_type_from_char) := by
    unfold get_world_from_file
    simp only [hrow]
    rw [foldl_push_map (fun line : List Char => line.map get_cell_type_from_char),
      List.nil_append]
  refine ⟨hmap, by rw [hmap, List.length_map], by decide, by decide, ?_, ?_, by decide⟩
  · intro ch h1 h2
    unfold get_cell_type_from_char RED_REPRESENTATION BLUE_REPRESENTATION
    rw [if_neg h1, if_neg h2]
  · intro cell
    cases cell <;> decide

/-- C16 (division guard): at every coordinate inside the grid, the counter `neighbours_count` of
    `calculate_happiness` ends at most at 4, and at 0 exactly when the grid has one row and
    one column; so on a grid with at least two cells the divisor is not 0. -/
theorem neighbour_count_guard (c : Coordinate) (world : World)
    (hinside : is_inside c.1 c.2 world = true) :
    (neighbour_counts c world).1 ≤ 4
      ∧ ((neighbour_counts c world).1 = 0 ↔ world.length = 1 ∧ width world = 1)
      ∧ (2 ≤ world.length * width world → (neighbour_counts c world).1 ≠ 0) := by
  rw [neighbour_counts_eq]
  refine ⟨inside_neighbours_length_le c world, ?_, ?_⟩
  · rw [← inside_neighbours_eq_nil_iff hinside]
    exact List.length_eq_zero
  · intro hcells
    have := inside_neighbours_pos hinside hcells
    show (inside_neighbours c world).length ≠ 0
    omega

theorem neighbour_count_guard_witness :
    is_inside 0 1 sample_world = true
      ∧ ((neighbour_counts (0, 1) sample_world).1 ≤ 4
        ∧ ((neighbour_counts (0, 1) sample_world).1 = 0
            ↔ sample_world.length = 1 ∧ width sample_world = 1)
        ∧ (2 ≤ sample_world.length * width sample_world →
            (neighbour_counts (0, 1) sample_world).1 ≠ 0)) :=
  ⟨by decide, neighbour_count_guard (0, 1) sample_world (by decide)⟩

/-- C17 (shape preservation): on a rectangular grid, for every shuffle result that is a
    permutation of the jumpable list, the result of `run_one_generation` has the number of
    rows and the row length of the input, is rectangular, and has as many `EMPTY` cells; the
    same holds of the grid returned by `run_simulation` in fixed-count mode, for every
    sequence of shuffles returning permutations. -/
theorem shape_preserved (fuel : Nat) (shuffle : Shuffle) (shuffles : Nat → Shuffle)
    (old_world : World) (t : Int) (k : Int) (hrect : Rectangular old_world)
    (hshuffle : (shuffle (get_jumpable_coordinates old_world t)).Perm
      (get_jumpable_coordinates old_world t))
    (hshuffles : ∀ i, IsShuffle (shuffles i)) (hk : k ≠ 0) :
    ((run_one_generation shuffle old_world t).length = old_world.length
        ∧ (∀ r ∈ run_one_generation shuffle old_world t, r.length = width old_world)
        ∧ Rectangular (run_one_generation shuffle old_world t)
        ∧ List.count CellType.EMPTY (run_one_generation shuffle old_world t).flatten
            = List.count CellType.EMPTY old_world.flatten)
      ∧ ∃ result, run_simulation fuel shuffles old_world k t = some result
        ∧ result.length = old_world.length
        ∧ (∀ r ∈ result, r.length = width old_world)
        ∧ Rectangular result
        ∧ List.count CellType.EMPTY result.flatten
            = List.count CellType.EMPTY old_world.flatten := by
  have hshape := shape_run_one_generation old_world t hshuffle
  refine ⟨⟨hshape.1, hshape.2, (rectangular_of_shape hshape).1, ?_⟩, ?_⟩
  · exact count_empty_of_shape hshape (shape_of_rectangular hrect)
      (fun b hb => count_run_one_generation t hrect hshuffle hb)
  · obtain ⟨hs, hr, _, hc⟩ := generations_inv t hrect hshuffles k.toNat
    refine ⟨generations shuffles old_world t k.toNat, ?_, hs.1, hs.2, hr, ?_⟩
    · unfold run_simulation INFINITE_SIMULATION
      rw [if_neg hk, run_finite_simulation_eq]
    · exact count_empty_of_shape hs (shape_of_rectangular hrect) hc

theorem shape_preserved_witness :
    Rectangular sample_world
      ∧ (List.reverse (get_jumpable_coordinates sample_world 50)).Perm
          (get_jumpable_coordinates sample_world 50)
      ∧ (∀ i : Nat, IsShuffle ((fun _ => List.reverse) i)) ∧ (2 : Int) ≠ 0
      ∧ (run_one_generation List.reverse sample_world 50).length = sample_world.length
      ∧ Rectangular (run_one_generation List.reverse sample_world 50)
      ∧ ∃ result, run_simulation 0 (fun _ => List.reverse) sample_world 2 50 = some result
        ∧ result.length = sample_world.length
        ∧ (∀ r ∈ result, r.length = width sample_world)
        ∧ Rectangular result
        ∧ List.count CellType.EMPTY result.flatten
            = List.count CellType.EMPTY sample_world.flatten := by
  have h := shape_preserved 0 List.reverse (fun _ => List.reverse) sample_world 50 2
    rectangular_sample_world (List.reverse_perm _) (fun _ => List.reverse_perm) (by decide)
  exact ⟨rectangular_sample_world, List.reverse_perm _, fun _ => List.reverse_perm, by decide,
    h.1.1, h.1.2.2.1, h.2⟩

/-- C18 (threshold monotonicity): for thresholds `t1 ≤ t2`, every coordinate happy at `t2` is
    happy at `t1`; on a rectangular grid `get_unhappy_count` at `t1` is at most that at `t2`,
    and the jumpable list at `t1` is a sublist of the jumpable list at `t2`. -/
theorem threshold_monotone (world : World) (t1 t2 : Int) (hrect : Rectangular world)
    (h : t1 ≤ t2) :
    (∀ c : Coordinate, is_happy c world t2 = true → is_happy c world t1 = true)
      ∧ get_unhappy_count world t1 ≤ get_unhappy_count world t2
      ∧ (get_jumpable_coordinates world t1).Sublist (get_jumpable_coordinates world t2) := by
  have hmono : ∀ c : Coordinate, is_happy c world t2 = true → is_happy c world t1 = true :=
    fun c hc => is_happy_mono c world h hc
  have hfalse : ∀ c : Coordinate, is_happy c world t1 = false → is_happy c world t2 = false := by
    intro c hc
    by_contra hne
    have := hmono c (by simpa using hne)
    rw [hc] at this
    exact Bool.false_ne_true this
  refine ⟨hmono, ?_, ?_⟩
  · rw [get_unhappy_count_eq hrect, get_unhappy_count_eq hrect]
    apply List.countP_mono_left
    intro c _ hc
    unfold unhappy_test at hc ⊢
    simp only [decide_eq_true_eq] at hc ⊢
    exact ⟨hc.1, hfalse c hc.2⟩
  · rw [get_jumpable_coordinates_eq, get_jumpable_coordinates_eq]
    apply List.monotone_filter_right
    intro c hc
    unfold jumpable_test at hc ⊢
    simp only [decide_eq_true_eq] at hc ⊢
    rcases hc with hc | hc
    · exact Or.inl (hfalse c hc)
    · exact Or.inr hc

theorem threshold_monotone_witness :
    Rectangular sample_world ∧ (30 : Int) ≤ 50
      ∧ ((∀ c : Coordinate, is_happy c sample_world 50 = true →
            is_happy c sample_world 30 = true)
        ∧ get_unhappy_count sample_world 30 ≤ get_unhappy_count sample_world 50
        ∧ (get_jumpable_coordinates sample_world 30).Sublist
            (get_jumpable_coordinates sample_world 50)) :=
  ⟨rectangular_sample_world, by decide,
    threshold_monotone sample_world 30 50 rectangular_sample_world (by decide)⟩

/-- C19 (a converged grid survives any run): on a rectangular grid with
    `get_unhappy_count = 0`, for every `simulation_count`, zero, positive or negative, and
    every sequence of shuffles returning permutations, `run_simulation` returns the input
    grid. -/
theorem converged_survives_run (fuel : Nat) (shuffles : Nat → Shuffle) (world : World)
    (k : Int) (t : Int) (hrect : Rectangular world) (hshuffles : ∀ i, IsShuffle (shuffles i))
    (hconv : get_unhappy_count world t = 0) :
    run_simulation (fuel + 1) shuffles world k t = some world := by
  unfold run_simulation INFINITE_SIMULATION
  by_cases hk : k = 0
  · rw [if_pos hk]
    show infinite_loop t (fuel + 1) shuffles world = some world
    unfold infinite_loop
    rw [if_neg (by rw [hconv]; exact fun h => h rfl)]
  · rw [if_neg hk, run_finite_simulation_eq, generations_converged hrect hshuffles hconv]

theorem converged_survives_run_witness :
    Rectangular converged_world ∧ (∀ i : Nat, IsShuffle ((fun _ => List.reverse) i))
      ∧ get_unhappy_count converged_world 50 = 0
      ∧ run_simulation (0 + 1) (fun _ => List.reverse) converged_world 0 50
          = some converged_world
      ∧ run_simulation (0 + 1) (fun _ => List.reverse) converged_world 4 50
          = some converged_world
      ∧ run_simulation (0 + 1) (fun _ => List.reverse) converged_world (-4) 50
          = some converged_world :=
  ⟨rectangular_converged_world, fun _ => List.reverse_perm, by decide,
    converged_survives_run 0 (fun _ => List.reverse) converged_world 0 50
      rectangular_converged_world (fun _ => List.reverse_perm) (by decide),
    converged_survives_run 0 (fun _ => List.reverse) converged_world 4 50
      rectangular_converged_world (fun _ => List.reverse_perm) (by decide),
    converged_survives_run 0 (fun _ => List.reverse) converged_world (-4) 50
      rectangular_converged_world (fun _ => List.reverse_perm) (by decide)⟩

/-- C20 (negative simulation count): for every grid and threshold and every
    `simulation_count < 0`, `run_simulation` takes the branch of `run_finite_simulation`,
    whose loop runs zero times, and returns the input grid, whatever its unhappy count. -/
theorem negative_count_returns_input (fuel : Nat) (shuffles : Nat → Shuffle) (world : World)
    (k : Int) (t : Int) (hk : k < 0) :
    run_simulation fuel shuffles world k t
        = some (run_finite_simulation shuffles world k t)
      ∧ List.range k.toNat = []
      ∧ run_finite_simulation shuffles world k t = world
      ∧ run_simulation fuel shuffles world k t = some world := by
  have hnat : k.toNat = 0 := by omega
  have hbranch : run_simulation fuel shuffles world k t
      = some (run_finite_simulation shuffles world k t) := by
    unfold run_simulation INFINITE_SIMULATION
    rw [if_neg (by omega)]
  have hfin : run_finite_simulation shuffles world k t = world := by
    rw [run_finite_simulation_eq, hnat]
    rfl
  refine ⟨hbranch, by rw [hnat]; rfl, hfin, ?_⟩
  rw [hbranch, hfin]

theorem negative_count_returns_input_witness :
    (-3 : Int) < 0 ∧ get_unhappy_count sample_world 50 ≠ 0
      ∧ run_simulation 7 (fun _ => List.reverse) sample_world (-3) 50
          = some (run_finite_simulation (fun _ => List.reverse) sample_world (-3) 50)
      ∧ List.range (-3 : Int).toNat = []
      ∧ run_finite_simulation (fun _ => List.reverse) sample_world (-3) 50 = sample_world
      ∧ run_simulation 7 (fun _ => List.reverse) sample_world (-3) 50 = some sample_world :=
  ⟨by decide, by decide,
    negative_count_returns_input 7 (fun _ => List.reverse) sample_world (-3) 50 (by decide)⟩

end Schelling
